import Mathlib

set_option maxHeartbeats 1000000

/-
Shallow embedding of the core of the worktree-remove tool:

* a character-level model of the Node.js path library (posix flavour in
  full, win32 flavour for the pieces the code uses),
* the path-key normalization and containment helpers,
* the removal-safety guard, the target resolver, the porcelain parser,
* the removal executor and the batch coordinator's execution phase.

Effectful collaborators (filesystem existence checks, trash, git
unregister, interactive prompts, process.chdir) are modelled as explicit
oracle inputs, and every external invocation is recorded in the result so
that frame properties ("dry-run never mutates") are provable.
-/

/-- The whitespace class of JavaScript: the characters matched by the
regular-expression class backslash-s (with the u flag) and removed by
String.prototype.trim. -/
def isJsWhitespace (c : Char) : Bool :=
  c = ' ' || c = '\t' || c = '\n' || c = '\r' ||
  c = '\x0b' || c = '\x0c' || c = '\u00a0' ||
  c = '\u1680' || ('\u2000' ≤ c && c ≤ '\u200a') ||
  c = '\u2028' || c = '\u2029' || c = '\u202f' ||
  c = '\u205f' || c = '\u3000' || c = '\ufeff'

/-- JavaScript String.prototype.trim. -/
def jsTrim (s : String) : String :=
  String.mk (((s.data.dropWhile isJsWhitespace).reverse.dropWhile isJsWhitespace).reverse)

/-- Character-list prefix test (first argument is the candidate prefix). -/
def prefixChars : List Char → List Char → Bool
  | [], _ => true
  | _ :: _, [] => false
  | a :: as, b :: bs => a == b && prefixChars as bs

/-- JavaScript String.prototype.startsWith. -/
def strStarts (s pre : String) : Bool := prefixChars pre.data s.data

/-- JavaScript String.prototype.includes for a single character. -/
def strContains (s : String) (c : Char) : Bool := s.data.contains c

/-- Split a character list at every separator character; empty pieces are
kept, mirroring String.prototype.split. -/
def splitBy (sep : Char → Bool) : List Char → List (List Char)
  | [] => [[]]
  | c :: cs =>
    if sep c then [] :: splitBy sep cs
    else
      match splitBy sep cs with
      | [] => [[c]]
      | s :: ss => (c :: s) :: ss

/-- Join character-list segments with a separator character. -/
def joinWith (sep : Char) : List (List Char) → List Char
  | [] => []
  | [s] => s
  | s :: ss => s ++ sep :: joinWith sep ss

/-- posix path segments: split on the slash and drop empty pieces. -/
def segsOf (cs : List Char) : List (List Char) :=
  (splitBy (· == '/') cs).filter (fun s => !s.isEmpty)

/-- One step of Node's normalizeString: skip a dot segment, pop on a
dot-dot segment (keeping it when nothing can be popped and climbing above
the root is allowed), push anything else.  The stack is kept reversed. -/
def segStep (allowAboveRoot : Bool) (stack : List (List Char)) (seg : List Char) :
    List (List Char) :=
  if seg == ['.'] then stack
  else if seg == ['.', '.'] then
    match stack with
    | top :: rest => if top == ['.', '.'] then seg :: top :: rest else rest
    | [] => if allowAboveRoot then [seg] else []
  else seg :: stack

/-- Node's normalizeString on a segment list. -/
def normSegs (allowAboveRoot : Bool) (segs : List (List Char)) : List (List Char) :=
  (segs.foldl (segStep allowAboveRoot) []).reverse

/-- path.posix.isAbsolute. -/
def posixIsAbsolute (p : String) : Bool := strStarts p "/"

/-- path.posix.resolve restricted to two arguments, with the process
working directory passed explicitly as the first one (Node falls back to
process.cwd() when the right-hand path is relative). -/
def resolveChars (cwd p : List Char) : List Char :=
  let combined := if prefixChars ['/'] p then p else cwd ++ '/' :: p
  let abs := prefixChars ['/'] combined
  let body := joinWith '/' (normSegs (!abs) (segsOf combined))
  if abs then '/' :: body
  else if body.isEmpty then ['.'] else body

/-- String wrapper for resolveChars. -/
def posixResolve (cwd p : String) : String := String.mk (resolveChars cwd.data p.data)

/-- Length of the longest common prefix of two segment lists. -/
def commonPrefixLength : List (List Char) → List (List Char) → Nat
  | a :: as, b :: bs => if a == b then commonPrefixLength as bs + 1 else 0
  | _, _ => 0

/-- path.posix.relative: resolve both paths, then emit one dot-dot segment
for every segment of the source that is not shared, followed by the
target's remaining segments. -/
def posixRelative (cwd fromPath toPath : String) : String :=
  let F := segsOf (resolveChars cwd.data fromPath.data)
  let T := segsOf (resolveChars cwd.data toPath.data)
  let k := commonPrefixLength F T
  String.mk (joinWith '/' (List.replicate (F.length - k) ['.', '.'] ++ T.drop k))

/-- path.posix.normalize. -/
def posixNormalize (p : String) : String :=
  if p = "" then "." else
  let cs := p.data
  let abs := prefixChars ['/'] cs
  let trailing := prefixChars ['/'] cs.reverse
  let body := joinWith '/' (normSegs (!abs) (segsOf cs))
  if body.isEmpty then (if abs then "/" else if trailing then "./" else ".")
  else
    let body2 := if trailing then body ++ ['/'] else body
    if abs then String.mk ('/' :: body2) else String.mk body2

/-- path.posix.join restricted to two arguments. -/
def posixJoin (a b : String) : String :=
  let parts := [a, b].filter (fun s => s != "")
  if parts.isEmpty then "." else posixNormalize (String.intercalate "/" parts)

/-- path.posix.basename (one-argument form). -/
def posixBasename (p : String) : String :=
  match (segsOf p.data).getLast? with
  | some s => String.mk s
  | none => ""

/-- path.posix.dirname, following Node's scan from the end of the string:
skip trailing slashes, then cut before the previous slash. -/
def posixDirname (p : String) : String :=
  if p = "" then "." else
  let cs := p.data
  let hasRoot := prefixChars ['/'] cs
  let rcs := (cs.drop 1).reverse
  let afterTrail := rcs.dropWhile (· == '/')
  let rest := afterTrail.dropWhile (· != '/')
  if rest.isEmpty then (if hasRoot then "/" else ".")
  else if hasRoot && rest.length == 1 then "//"
  else String.mk (cs.take rest.length)

/-- The root field of path.posix.parse. -/
def posixParseRoot (p : String) : String := if posixIsAbsolute p then "/" else ""

example : posixResolve "/x" "a/../b" = "/x/b" := by decide
example : posixResolve "/x" "/a//b/./c/.." = "/a/b" := by decide
example : posixRelative "/" "/a/b" "/a" = ".." := by decide
example : posixRelative "/" "/a" "/b/c" = "../b/c" := by decide
example : posixRelative "/" "/a" "/a" = "" := by decide
example : posixJoin "/r" "w" = "/r/w" := by decide
example : posixBasename "/a/b/" = "b" := by decide
example : posixDirname "/a/b" = "/a" := by decide
example : posixDirname "a/b/" = "a" := by decide
example : posixDirname "/" = "/" := by decide
example : jsTrim "  hi \t" = "hi" := by decide

/-- Windows path separator test (path.win32 accepts both slashes). -/
def isWinSep (c : Char) : Bool := c = '/' || c = '\\'

/-- Windows drive-letter test. -/
def isWinLetter (c : Char) : Bool := ('a' ≤ c && c ≤ 'z') || ('A' ≤ c && c ≤ 'Z')

/-- path.win32.isAbsolute: a leading separator, or a drive letter followed
by a colon and a separator. -/
def win32IsAbsolute (p : String) : Bool :=
  match p.data with
  | [] => false
  | c0 :: rest =>
    isWinSep c0 ||
    (match rest with
     | c1 :: c2 :: _ => isWinLetter c0 && c1 == ':' && isWinSep c2
     | _ => false)

/-- Parse a win32 root, returning (device, isAbsolute, tail).  Drive roots
and UNC server-share roots follow Node's win32 parsing; a UNC spelling
without a share falls back to a plain rooted path. -/
def parseWinRoot (cs : List Char) : List Char × Bool × List Char :=
  match cs with
  | [] => ([], false, [])
  | c0 :: rest0 =>
    if isWinSep c0 then
      match rest0 with
      | c1 :: rest1 =>
        if isWinSep c1 then
          let server := rest1.takeWhile (fun c => !isWinSep c)
          let afterServer := rest1.drop server.length
          match afterServer with
          | _ :: rest2 =>
            if server.isEmpty then ([], true, rest0)
            else
              let share := rest2.takeWhile (fun c => !isWinSep c)
              if share.isEmpty then ([], true, rest0)
              else (['\\', '\\'] ++ server ++ '\\' :: share, true, rest2.drop share.length)
          | [] => ([], true, rest0)
        else ([], true, rest0)
      | [] => ([], true, [])
    else
      match rest0 with
      | c1 :: rest1 =>
        if isWinLetter c0 && c1 == ':' then
          match rest1 with
          | c2 :: rest2 =>
            if isWinSep c2 then ([c0, ':'], true, rest2) else ([c0, ':'], false, rest1)
          | [] => ([c0, ':'], false, [])
        else ([], false, cs)
      | [] => ([], false, cs)

/-- Lowercase a character list (JS toLowerCase, restricted to the
character-wise lowering Lean provides). -/
def lowerChars (cs : List Char) : List Char := cs.map Char.toLower

/-- JS String.prototype.toLowerCase, modelled character-wise. -/
def lowerStr (s : String) : String := String.mk (lowerChars s.data)

/-- Render a win32 path from device, absoluteness and raw tail. -/
def win32Render (dev : List Char) (abs : Bool) (tail : List Char) : String :=
  let body := joinWith '\\' (normSegs (!abs) ((splitBy isWinSep tail).filter (fun s => !s.isEmpty)))
  if abs then String.mk (dev ++ '\\' :: body)
  else if dev.isEmpty && body.isEmpty then "."
  else String.mk (dev ++ body)

/-- path.win32.resolve restricted to two arguments, the process working
directory passed explicitly.  Node resolves a drive-relative path against
that drive's per-drive working directory from the environment when one is
recorded there; that lookup is modelled by its fallback, the drive root. -/
def win32Resolve (cwd p : String) : String :=
  let parsed := parseWinRoot p.data
  let dev := parsed.1
  let abs := parsed.2.1
  let tail := parsed.2.2
  if abs then win32Render dev true tail
  else
    let cparsed := parseWinRoot cwd.data
    let cdev := cparsed.1
    let cabs := cparsed.2.1
    let ctail := cparsed.2.2
    if !dev.isEmpty && lowerChars dev ≠ lowerChars cdev then
      win32Render dev true tail
    else
      let dev2 := if dev.isEmpty then cdev else dev
      win32Render dev2 cabs (ctail ++ '\\' :: tail)

/-- Segment-wise common-prefix length under case-insensitive comparison. -/
def commonPrefixLengthLower : List (List Char) → List (List Char) → Nat
  | a :: as, b :: bs =>
    if lowerChars a == lowerChars b then commonPrefixLengthLower as bs + 1 else 0
  | _, _ => 0

/-- path.win32.relative: resolve both paths, compare case-insensitively;
paths on different devices yield the resolved target verbatim, otherwise
dot-dot segments followed by the target's remaining original-case
segments. -/
def win32Relative (cwd fromPath toPath : String) : String :=
  let rf := win32Resolve cwd fromPath
  let rt := win32Resolve cwd toPath
  if lowerStr rf = lowerStr rt then "" else
  let pf := parseWinRoot rf.data
  let pt := parseWinRoot rt.data
  if lowerChars pf.1 ≠ lowerChars pt.1 then rt
  else
    let F := (splitBy isWinSep pf.2.2).filter (fun s => !s.isEmpty)
    let T := (splitBy isWinSep pt.2.2).filter (fun s => !s.isEmpty)
    let k := commonPrefixLengthLower F T
    String.mk (joinWith '\\' (List.replicate (F.length - k) ['.', '.'] ++ T.drop k))

example : win32Resolve "C:\\base" "C:\\a\\..\\b" = "C:\\b" := by decide
example : win32Resolve "C:\\base" "x/y" = "C:\\base\\x\\y" := by decide
example : win32IsAbsolute "C:\\a" = true := by decide
example : win32IsAbsolute "C:a" = false := by decide
example : win32IsAbsolute "/x" = true := by decide
example : win32Relative "C:\\" "C:\\A\\b" "c:\\a\\c" = "..\\c" := by decide

/-- The platform tag the code branches on: win32, or any posix-like
platform (every non-win32 value behaves identically in this program). -/
inductive Platform
  | win32
  | posix
deriving DecidableEq

/-- path.isAbsolute for the given platform. -/
def platformIsAbsolute : Platform → String → Bool
  | .win32 => win32IsAbsolute
  | .posix => posixIsAbsolute

/-- path.resolve for the given platform (explicit process cwd first). -/
def platformResolve : Platform → String → String → String
  | .win32 => win32Resolve
  | .posix => posixResolve

/-- path.relative for the given platform (explicit process cwd first). -/
def platformRelative : Platform → String → String → String → String
  | .win32 => win32Relative
  | .posix => posixRelative

/-- path.sep for the given platform. -/
def platformSep : Platform → String
  | .win32 => "\\"
  | .posix => "/"

/-- normalizePathKey from src/fs/normalize-path-key.ts: resolve against
the process working directory (passed explicitly here), lowercasing on
win32. -/
def normalizePathKey (platform : Platform) (cwd filePath : String) : String :=
  match platform with
  | .win32 => lowerStr (win32Resolve cwd filePath)
  | .posix => posixResolve cwd filePath

/-- Input for the containment helpers, as in is-path-equal-or-within.ts. -/
structure PathContainmentInput where
  basePath : String
  candidatePath : String
  platform : Platform
deriving DecidableEq

/-- isPathWithin from is-path-equal-or-within.ts: absolute inputs only,
then a relative-path decomposition check. -/
def isPathWithin (cwd : String) (input : PathContainmentInput) (includeEqual : Bool) : Bool :=
  if !platformIsAbsolute input.platform input.basePath then false
  else if !platformIsAbsolute input.platform input.candidatePath then false
  else
    let rel := platformRelative input.platform cwd
      (platformResolve input.platform cwd input.basePath)
      (platformResolve input.platform cwd input.candidatePath)
    if rel == "" then includeEqual
    else if platformIsAbsolute input.platform rel then false
    else if rel == ".." || strStarts rel (".." ++ platformSep input.platform) then false
    else true

/-- isPathEqualOrWithin from is-path-equal-or-within.ts. -/
def isPathEqualOrWithin (cwd : String) (input : PathContainmentInput) : Bool :=
  isPathWithin cwd input true

/-- isPathStrictlyWithin from is-path-equal-or-within.ts. -/
def isPathStrictlyWithin (cwd : String) (input : PathContainmentInput) : Bool :=
  isPathWithin cwd input false

/-- Input of the removal-safety guard. -/
structure RemovalSafetyInput where
  targetPath : String
  mainPath : String
  registeredPath : Option String
deriving DecidableEq

/-- JavaScript truthiness of an optional string: absent or empty is falsy. -/
def optTruthy : Option String → Bool
  | none => false
  | some s => s != ""

/-- assertRemovalSafe from the removal-safety module: the three ordered
checks, a fatal exit modelled as some message, a normal return as none. -/
def assertRemovalSafe (platform : Platform) (cwd : String) (input : RemovalSafetyInput) :
    Option String :=
  if normalizePathKey platform cwd input.targetPath =
      normalizePathKey platform cwd input.mainPath then
    some "Refusing to remove the main worktree."
  else if isPathStrictlyWithin cwd ⟨input.targetPath, input.mainPath, platform⟩ then
    some "Refusing to remove a directory containing the main worktree."
  else if !optTruthy input.registeredPath &&
      isPathStrictlyWithin cwd ⟨input.mainPath, input.targetPath, platform⟩ then
    some "Refusing to remove an unregistered directory inside the main worktree."
  else none

example : assertRemovalSafe .posix "/" ⟨"/r", "/r", none⟩ =
    some "Refusing to remove the main worktree." := by decide
example : assertRemovalSafe .posix "/" ⟨"/u", "/u/r", none⟩ =
    some "Refusing to remove a directory containing the main worktree." := by decide
example : assertRemovalSafe .posix "/" ⟨"/r/w", "/r", none⟩ =
    some "Refusing to remove an unregistered directory inside the main worktree." := by decide
example : assertRemovalSafe .posix "/" ⟨"/r/w", "/r", some "/r/w"⟩ = none := by decide
example : assertRemovalSafe .posix "/" ⟨"/r-other", "/r", none⟩ = none := by decide

/-- C1: whenever the target path and the main path are normalized-equal
under the platform-aware path-key normalization, the removal-safety guard
fails fatally with the main-worktree refusal, for every value of the
registered path. -/
theorem assertRemovalSafe_refuses_main (platform : Platform) (cwd : String)
    (input : RemovalSafetyInput)
    (h : normalizePathKey platform cwd input.targetPath =
      normalizePathKey platform cwd input.mainPath) :
    assertRemovalSafe platform cwd input = some "Refusing to remove the main worktree." := by
  simp [assertRemovalSafe, h]

/-- Witness for C1 at a concrete call: a dot segment makes the two paths
normalized-equal, and the guard refuses even though a registered path is
supplied. -/
theorem assertRemovalSafe_refuses_main_witness :
    normalizePathKey .posix "/" "/x/./y" = normalizePathKey .posix "/" "/x/y" ∧
    assertRemovalSafe .posix "/" ⟨"/x/./y", "/x/y", some "/x/y"⟩ =
      some "Refusing to remove the main worktree." :=
  ⟨by decide, assertRemovalSafe_refuses_main .posix "/" ⟨"/x/./y", "/x/y", some "/x/y"⟩ (by decide)⟩


/-! Auxiliary lemmas about the character-level posix path model. -/

theorem prefixChars_iff (a b : List Char) : prefixChars a b = true ↔ a <+: b := by
  induction a generalizing b with
  | nil => simp [prefixChars]
  | cons x xs ih =>
    cases b with
    | nil => simp [prefixChars]
    | cons y ys =>
      simp only [prefixChars, Bool.and_eq_true, beq_iff_eq, ih]
      constructor
      · rintro ⟨rfl, t, ht⟩
        exact ⟨t, by rw [List.cons_append, ht]⟩
      · rintro ⟨t, ht⟩
        rw [List.cons_append] at ht
        injection ht with h1 h2
        exact ⟨h1, t, h2⟩

theorem splitBy_ne_nil (sep : Char → Bool) (cs : List Char) : splitBy sep cs ≠ [] := by
  cases cs with
  | nil => simp [splitBy]
  | cons c cs =>
    by_cases h : sep c = true
    · simp [splitBy, h]
    · rw [Bool.not_eq_true] at h
      simp only [splitBy, h]
      cases splitBy sep cs <;> simp

theorem splitBy_cons_sep (sep : Char → Bool) (c : Char) (cs : List Char) (h : sep c = true) :
    splitBy sep (c :: cs) = [] :: splitBy sep cs := by
  simp [splitBy, h]

theorem splitBy_cons_not (sep : Char → Bool) (c : Char) (cs : List Char) (h : sep c = false) :
    splitBy sep (c :: cs) = (c :: (splitBy sep cs).headI) :: (splitBy sep cs).tail := by
  cases hs : splitBy sep cs with
  | nil => exact absurd hs (splitBy_ne_nil sep cs)
  | cons s ss => simp [splitBy, h, hs]

theorem splitBy_mem_sep (sep : Char → Bool) (cs : List Char) :
    ∀ s ∈ splitBy sep cs, ∀ c ∈ s, sep c = false := by
  induction cs with
  | nil =>
    intro s hs c hc
    simp [splitBy] at hs
    subst hs
    simp at hc
  | cons x xs ih =>
    intro s hs c hc
    by_cases hx : sep x = true
    · rw [splitBy_cons_sep sep x xs hx] at hs
      rcases List.mem_cons.mp hs with h | h
      · subst h; simp at hc
      · exact ih s h c hc
    · rw [Bool.not_eq_true] at hx
      rw [splitBy_cons_not sep x xs hx] at hs
      cases hh : splitBy sep xs with
      | nil => exact absurd hh (splitBy_ne_nil sep xs)
      | cons t ts =>
        rw [hh] at hs
        simp only [List.headI, List.tail] at hs
        rcases List.mem_cons.mp hs with h | h
        · subst h
          rcases List.mem_cons.mp hc with h | h
          · subst h; exact hx
          · exact ih t (by simp [hh]) c h
        · exact ih s (by simp [hh, h]) c hc

/-- Splitting a list that starts with separator-free characters. -/
theorem splitBy_append_clean (sep : Char → Bool) (a b : List Char)
    (h : ∀ c ∈ a, sep c = false) :
    splitBy sep (a ++ b) = (a ++ (splitBy sep b).headI) :: (splitBy sep b).tail := by
  induction a with
  | nil =>
    simp only [List.nil_append]
    cases hs : splitBy sep b with
    | nil => exact absurd hs (splitBy_ne_nil sep b)
    | cons s ss => simp [hs]
  | cons x xs ih =>
    have hx : sep x = false := h x (by simp)
    have ih2 := ih (fun c hc => h c (by simp [hc]))
    rw [List.cons_append, splitBy_cons_not sep x (xs ++ b) hx, ih2]
    simp

theorem segsOf_mem (cs : List Char) (s : List Char) (hs : s ∈ segsOf cs) :
    s ≠ [] ∧ '/' ∉ s := by
  unfold segsOf at hs
  rw [List.mem_filter] at hs
  refine ⟨by simpa using hs.2, fun hc => ?_⟩
  have := splitBy_mem_sep (· == '/') cs s hs.1 '/' hc
  simp at this

/-- Segments that the normalizer treats as plain (no navigation meaning). -/
def PlainSeg (s : List Char) : Prop := s ≠ ['.'] ∧ s ≠ ['.', '.']

theorem segStep_plain (allow : Bool) (stack : List (List Char)) (seg : List Char)
    (h : PlainSeg seg) : segStep allow stack seg = seg :: stack := by
  rcases h with ⟨h1, h2⟩
  simp [segStep, h1, h2]

theorem segStep_false_plain (stack : List (List Char)) (a : List Char)
    (hst : ∀ s ∈ stack, PlainSeg s) :
    ∀ t ∈ segStep false stack a, PlainSeg t := by
  intro t ht
  by_cases h1 : a = ['.']
  · rw [show segStep false stack a = stack from by simp [segStep, h1]] at ht
    exact hst t ht
  · by_cases h2 : a = ['.', '.']
    · subst h2
      cases stack with
      | nil =>
        rw [show segStep false [] ['.', '.'] = [] from by simp [segStep]] at ht
        simp at ht
      | cons top rest =>
        have htop := hst top (by simp)
        have hne : (top == ['.', '.'] : Bool) = false := beq_eq_false_iff_ne.mpr htop.2
        rw [show segStep false (top :: rest) ['.', '.'] = rest from by
          simp [segStep, hne]] at ht
        exact hst t (List.mem_cons_of_mem top ht)
    · rw [segStep_plain false stack a ⟨h1, h2⟩] at ht
      rcases List.mem_cons.mp ht with h | h
      · subst h; exact ⟨h1, h2⟩
      · exact hst t h

/-- With allowAboveRoot off, the normalizer's output never holds a dot or
dot-dot segment. -/
theorem normSegs_no_dots (l : List (List Char)) :
    ∀ s ∈ normSegs false l, PlainSeg s := by
  have main : ∀ (l : List (List Char)) (stack : List (List Char)),
      (∀ s ∈ stack, PlainSeg s) → ∀ s ∈ l.foldl (segStep false) stack, PlainSeg s := by
    intro l
    induction l with
    | nil => intro stack hst s hs; exact hst s (by simpa using hs)
    | cons a l ih =>
      intro stack hst s hs
      rw [List.foldl_cons] at hs
      exact ih (segStep false stack a) (segStep_false_plain stack a hst) s hs
  intro s hs
  unfold normSegs at hs
  rw [List.mem_reverse] at hs
  exact main l [] (by simp) s hs

theorem segStep_sub (allow : Bool) (stack : List (List Char)) (a : List Char) :
    ∀ t ∈ segStep allow stack a, t ∈ stack ∨ t = a ∨ t = ['.', '.'] := by
  intro t ht
  by_cases h1 : a = ['.']
  · rw [show segStep allow stack a = stack from by simp [segStep, h1]] at ht
    exact Or.inl ht
  · by_cases h2 : a = ['.', '.']
    · subst h2
      cases stack with
      | nil =>
        by_cases ha : allow = true
        · subst ha
          rw [show segStep true [] ['.', '.'] = [['.', '.']] from by simp [segStep]] at ht
          exact Or.inr (Or.inr (by simpa using ht))
        · rw [Bool.not_eq_true] at ha
          subst ha
          rw [show segStep false [] ['.', '.'] = [] from by simp [segStep]] at ht
          simp at ht
      | cons top rest =>
        by_cases htop : top = ['.', '.']
        · subst htop
          rw [show segStep allow (['.', '.'] :: rest) ['.', '.'] =
              ['.', '.'] :: ['.', '.'] :: rest from by simp [segStep]] at ht
          rcases List.mem_cons.mp ht with h | h
          · exact Or.inr (Or.inr h)
          · exact Or.inl h
        · have hne : (top == ['.', '.'] : Bool) = false := beq_eq_false_iff_ne.mpr htop
          rw [show segStep allow (top :: rest) ['.', '.'] = rest from by
            simp [segStep, hne]] at ht
          exact Or.inl (List.mem_cons_of_mem top ht)
    · rw [segStep_plain allow stack a ⟨h1, h2⟩] at ht
      rcases List.mem_cons.mp ht with h | h
      · exact Or.inr (Or.inl h)
      · exact Or.inl h

/-- The normalizer only emits input segments or dot-dot segments. -/
theorem normSegs_mem (allow : Bool) (l : List (List Char)) :
    ∀ s ∈ normSegs allow l, s ∈ l ∨ s = ['.', '.'] := by
  have main : ∀ (l : List (List Char)) (stack : List (List Char)),
      ∀ s ∈ l.foldl (segStep allow) stack, s ∈ stack ∨ s ∈ l ∨ s = ['.', '.'] := by
    intro l
    induction l with
    | nil => intro stack s hs; exact Or.inl (by simpa using hs)
    | cons a l ih =>
      intro stack s hs
      rw [List.foldl_cons] at hs
      rcases ih (segStep allow stack a) s hs with h | h | h
      · rcases segStep_sub allow stack a s h with h | h | h
        · exact Or.inl h
        · exact Or.inr (Or.inl (by simp [h]))
        · exact Or.inr (Or.inr h)
      · exact Or.inr (Or.inl (List.mem_cons_of_mem a h))
      · exact Or.inr (Or.inr h)
  intro s hs
  unfold normSegs at hs
  rw [List.mem_reverse] at hs
  rcases main l [] s hs with h | h | h
  · simp at h
  · exact Or.inl h
  · exact Or.inr h

/-- The normalizer is the identity on lists free of navigation segments. -/
theorem normSegs_id (allow : Bool) (l : List (List Char)) (h : ∀ s ∈ l, PlainSeg s) :
    normSegs allow l = l := by
  unfold normSegs
  have main : ∀ (l : List (List Char)) (stack : List (List Char)),
      (∀ s ∈ l, PlainSeg s) → l.foldl (segStep allow) stack = l.reverse ++ stack := by
    intro l
    induction l with
    | nil => intro stack _; simp
    | cons a l ih =>
      intro stack hl
      rw [List.foldl_cons, segStep_plain allow stack a (hl a (by simp)),
        ih (a :: stack) (fun s hs => hl s (by simp [hs]))]
      simp
  rw [main l [] h]
  simp

/-- Segment hygiene: nonempty and slash-free. -/
def CleanSeg (s : List Char) : Prop := s ≠ [] ∧ '/' ∉ s

/-- The normalized segment view of a path string. -/
def pathSegs (p : String) : List (List Char) := normSegs false (segsOf p.data)

theorem normSegs_segsOf_clean (cs : List Char) :
    ∀ s ∈ normSegs false (segsOf cs), CleanSeg s ∧ PlainSeg s := by
  intro s hs
  refine ⟨?_, normSegs_no_dots _ s hs⟩
  rcases normSegs_mem false _ s hs with h | h
  · exact segsOf_mem _ s h
  · subst h; exact ⟨by simp, by decide⟩

theorem pathSegs_clean (p : String) : ∀ s ∈ pathSegs p, CleanSeg s ∧ PlainSeg s :=
  normSegs_segsOf_clean p.data

theorem joinWith_cons (sep : Char) (s : List Char) (ls : List (List Char)) (h : ls ≠ []) :
    joinWith sep (s :: ls) = s ++ sep :: joinWith sep ls := by
  cases ls with
  | nil => exact absurd rfl h
  | cons t ts => rfl

theorem joinWith_ne_nil (s : List Char) (ls : List (List Char)) (h : s ≠ []) :
    joinWith '/' (s :: ls) ≠ [] := by
  cases ls with
  | nil => simpa [joinWith] using h
  | cons t ts => simp [joinWith_cons '/' s (t :: ts) (by simp), h]

theorem filter_splitBy_join : ∀ (L : List (List Char)), (∀ s ∈ L, CleanSeg s) →
    (splitBy (· == '/') (joinWith '/' L)).filter (fun s => !s.isEmpty) = L
  | [], _ => by simp [joinWith, splitBy]
  | [s], h => by
    have hs := h s (by simp)
    have hclean : ∀ c ∈ s, ((· == '/') c) = false := by
      intro c hc
      simp only [beq_eq_false_iff_ne]
      intro hcc
      exact hs.2 (hcc ▸ hc)
    have hsplit : splitBy (· == '/') s = [s] := by
      have := splitBy_append_clean (· == '/') s [] hclean
      simpa [splitBy] using this
    simp [joinWith, hsplit, hs.1]
  | s :: t :: ts, h => by
    have hs := h s (by simp)
    have hclean : ∀ c ∈ s, ((· == '/') c) = false := by
      intro c hc
      simp only [beq_eq_false_iff_ne]
      intro hcc
      exact hs.2 (hcc ▸ hc)
    rw [joinWith_cons '/' s (t :: ts) (by simp),
      splitBy_append_clean (· == '/') s ('/' :: joinWith '/' (t :: ts)) hclean,
      splitBy_cons_sep (· == '/') '/' _ (by decide)]
    simp only [List.headI, List.tail, List.append_nil]
    rw [List.filter_cons_of_pos (by simpa using hs.1)]
    rw [filter_splitBy_join (t :: ts) (fun u hu => h u (by simp [hu]))]

theorem segsOf_slash_join (L : List (List Char)) (h : ∀ s ∈ L, CleanSeg s) :
    segsOf ('/' :: joinWith '/' L) = L := by
  unfold segsOf
  rw [splitBy_cons_sep (· == '/') '/' _ (by decide)]
  rw [List.filter_cons_of_neg (by simp)]
  exact filter_splitBy_join L h

theorem prefixChars_slash_cons (xs : List Char) :
    prefixChars ['/'] ('/' :: xs) = true := by
  simp [prefixChars]

theorem posixIsAbsolute_iff (p : String) :
    posixIsAbsolute p = true ↔ prefixChars ['/'] p.data = true := by
  have : "/".data = ['/'] := rfl
  rw [posixIsAbsolute, strStarts, this]

theorem resolveChars_of_abs (cwd p : List Char) (h : prefixChars ['/'] p = true) :
    resolveChars cwd p = '/' :: joinWith '/' (normSegs false (segsOf p)) := by
  simp only [resolveChars, h, if_true, Bool.not_true]

theorem segsOf_resolveChars_abs (cwd p : List Char) (h : prefixChars ['/'] p = true) :
    segsOf (resolveChars cwd p) = normSegs false (segsOf p) := by
  rw [resolveChars_of_abs cwd p h]
  exact segsOf_slash_join _ (fun s hs => (normSegs_segsOf_clean p s hs).1)

theorem segsOf_resolve_resolve (cwd p : String) (h : posixIsAbsolute p = true) :
    segsOf (resolveChars cwd.data (posixResolve cwd p).data) = pathSegs p := by
  have hp : prefixChars ['/'] p.data = true := (posixIsAbsolute_iff p).mp h
  have hdata : (posixResolve cwd p).data = resolveChars cwd.data p.data := rfl
  rw [hdata, resolveChars_of_abs cwd.data p.data hp,
    segsOf_resolveChars_abs _ _ (prefixChars_slash_cons _),
    segsOf_slash_join _ (fun s hs => (normSegs_segsOf_clean p.data s hs).1),
    normSegs_id false _ (fun s hs => (normSegs_segsOf_clean p.data s hs).2)]
  rfl

theorem cpl_refl (F : List (List Char)) : commonPrefixLength F F = F.length := by
  induction F with
  | nil => simp [commonPrefixLength]
  | cons a as ih => simp [commonPrefixLength, ih]

theorem cpl_le_left (F T : List (List Char)) : commonPrefixLength F T ≤ F.length := by
  induction F generalizing T with
  | nil => simp [commonPrefixLength]
  | cons a as ih =>
    cases T with
    | nil => simp [commonPrefixLength]
    | cons b bs =>
      by_cases h : (a == b : Bool) = true
      · simp only [commonPrefixLength, h, if_true, List.length_cons]
        exact Nat.succ_le_succ (ih bs)
      · rw [Bool.not_eq_true] at h
        simp [commonPrefixLength, h]

theorem cpl_eq_left_iff (F T : List (List Char)) :
    commonPrefixLength F T = F.length ↔ F <+: T := by
  induction F generalizing T with
  | nil => simp [commonPrefixLength]
  | cons a as ih =>
    cases T with
    | nil =>
      simp only [commonPrefixLength, List.length_cons]
      constructor
      · intro h; omega
      · intro h
        have := h.length_le
        simp at this
    | cons b bs =>
      by_cases h : a = b
      · subst h
        have hbeq : (a == a : Bool) = true := beq_self_eq_true a
        simp only [commonPrefixLength, hbeq, if_true, List.length_cons,
          Nat.add_right_cancel_iff, ih, List.cons_prefix_cons, true_and]
      · have hb : (a == b : Bool) = false := beq_eq_false_iff_ne.mpr h
        simp only [commonPrefixLength, hb, Bool.false_eq_true, if_false, List.length_cons,
          List.cons_prefix_cons]
        constructor
        · intro hh; omega
        · rintro ⟨h1, _⟩
          exact absurd h1 h

theorem prefixChars_dotdotslash_iff (l : List Char) :
    prefixChars ['.', '.', '/'] l = true ↔ ∃ t, l = '.' :: '.' :: '/' :: t := by
  match l with
  | [] => simp [prefixChars]
  | [a] => simp [prefixChars]
  | [a, b] => simp [prefixChars]
  | a :: b :: c :: t =>
    simp only [prefixChars, Bool.and_eq_true, beq_iff_eq, and_true]
    constructor
    · rintro ⟨rfl, rfl, rfl⟩
      exact ⟨t, rfl⟩
    · rintro ⟨t2, ht⟩
      injection ht with h1 ht
      injection ht with h2 ht
      injection ht with h3 _
      exact ⟨h1.symm, h2.symm, h3.symm⟩

theorem append_ne_dotdot (s0 rest : List Char) (h0 : s0 ≠ [])
    (hdd : s0 ≠ ['.', '.']) (hrest : rest = [] ∨ ∃ r, rest = '/' :: r) :
    s0 ++ rest ≠ ['.', '.'] := by
  intro hEq
  rcases hrest with rfl | ⟨r, rfl⟩
  · rw [List.append_nil] at hEq; exact hdd hEq
  · cases s0 with
    | nil => exact h0 rfl
    | cons a s1 =>
      cases s1 with
      | nil =>
        rw [List.cons_append, List.nil_append] at hEq
        injection hEq with h1 h2
        injection h2 with h3 _
        exact absurd h3 (by decide)
      | cons b s2 =>
        rw [List.cons_append, List.cons_append] at hEq
        injection hEq with h1 h2
        injection h2 with h3 h4
        exact absurd (List.append_eq_nil.mp h4).2 (by simp)

theorem append_not_dotdotslash (s0 rest : List Char) (h0 : s0 ≠ []) (hsl : '/' ∉ s0)
    (hdd : s0 ≠ ['.', '.']) (hrest : rest = [] ∨ ∃ r, rest = '/' :: r) :
    prefixChars ['.', '.', '/'] (s0 ++ rest) = false := by
  rw [Bool.eq_false_iff]
  intro hpre
  obtain ⟨t, ht⟩ := (prefixChars_dotdotslash_iff _).mp hpre
  cases s0 with
  | nil => exact h0 rfl
  | cons a s1 =>
    rw [List.cons_append] at ht
    injection ht with h1 ht2
    subst h1
    cases s1 with
    | nil =>
      rw [List.nil_append] at ht2
      rcases hrest with rfl | ⟨r, rfl⟩
      · simp at ht2
      · injection ht2 with hh _
        exact absurd hh (by decide)
    | cons b s2 =>
      rw [List.cons_append] at ht2
      injection ht2 with h2 ht3
      subst h2
      cases s2 with
      | nil =>
        rcases hrest with rfl | ⟨r, rfl⟩
        · exact hdd rfl
        · exact hdd rfl
      | cons c s3 =>
        rw [List.cons_append] at ht3
        injection ht3 with h3 _
        subst h3
        exact hsl (by simp)

theorem prefixChars_slash_false (s rest : List Char) (h0 : s ≠ []) (hsl : '/' ∉ s) :
    prefixChars ['/'] (s ++ rest) = false := by
  cases s with
  | nil => exact absurd rfl h0
  | cons a s1 =>
    have ha : ('/' == a : Bool) = false := by
      rw [beq_eq_false_iff_ne]
      intro hh
      exact hsl (by simp [hh.symm])
    rw [List.cons_append]
    simp [prefixChars, ha]

theorem joinWith_cons_shape (s : List Char) (ls : List (List Char)) :
    ∃ rest, joinWith '/' (s :: ls) = s ++ rest ∧ (rest = [] ∨ ∃ r, rest = '/' :: r) := by
  cases ls with
  | nil => exact ⟨[], by simp [joinWith], Or.inl rfl⟩
  | cons t ts =>
    exact ⟨'/' :: joinWith '/' (t :: ts),
      by rw [joinWith_cons '/' s (t :: ts) (by simp)], Or.inr ⟨_, rfl⟩⟩

theorem string_mk_eq_empty_iff (l : List Char) : (String.mk l == "" : Bool) = true ↔ l = [] := by
  rw [beq_iff_eq]
  constructor
  · intro h
    have : (String.mk l).data = ("" : String).data := by rw [h]
    simpa using this
  · intro h; subst h; rfl

theorem string_mk_eq_dotdot_iff (l : List Char) :
    (String.mk l == ".." : Bool) = true ↔ l = ['.', '.'] := by
  rw [beq_iff_eq]
  constructor
  · intro h
    have : (String.mk l).data = (".." : String).data := by rw [h]
    simpa using this
  · intro h; subst h; rfl

theorem posixRelative_resolved (cwd b c : String) (hb : posixIsAbsolute b = true)
    (hc : posixIsAbsolute c = true) :
    posixRelative cwd (posixResolve cwd b) (posixResolve cwd c) =
      String.mk (joinWith '/'
        (List.replicate ((pathSegs b).length - commonPrefixLength (pathSegs b) (pathSegs c))
          ['.', '.'] ++ (pathSegs c).drop (commonPrefixLength (pathSegs b) (pathSegs c)))) := by
  unfold posixRelative
  rw [segsOf_resolve_resolve cwd b hb, segsOf_resolve_resolve cwd c hc]

theorem posixIsAbsolute_mk (l : List Char) :
    posixIsAbsolute (String.mk l) = prefixChars ['/'] l := rfl

theorem isPathStrictlyWithin_posix_iff (cwd b c : String) :
    isPathStrictlyWithin cwd ⟨b, c, .posix⟩ = true ↔
      (posixIsAbsolute b = true ∧ posixIsAbsolute c = true ∧
        pathSegs b <+: pathSegs c ∧ pathSegs b ≠ pathSegs c) := by
  unfold isPathStrictlyWithin isPathWithin
  simp only [platformIsAbsolute, platformResolve, platformRelative, platformSep]
  by_cases hb : posixIsAbsolute b = true
  · by_cases hc : posixIsAbsolute c = true
    · rw [hb, hc]
      simp only [Bool.not_true, Bool.false_eq_true, if_false]
      simp only [posixRelative_resolved cwd b c hb hc]
      by_cases heq : pathSegs b = pathSegs c
      · have hk : commonPrefixLength (pathSegs b) (pathSegs c) = (pathSegs b).length := by
          rw [heq, cpl_refl]
        have hJ : List.replicate ((pathSegs b).length -
              commonPrefixLength (pathSegs b) (pathSegs c)) ['.', '.'] ++
              (pathSegs c).drop (commonPrefixLength (pathSegs b) (pathSegs c)) = [] := by
          rw [hk, heq, Nat.sub_self, List.replicate_zero, List.nil_append, List.drop_length]
        simp only [hJ]
        have hempty : (String.mk (joinWith '/' ([] : List (List Char))) == "" : Bool) = true :=
          (string_mk_eq_empty_iff _).mpr (by simp [joinWith])
        simp only [hempty]
        simp [heq]
      · rcases Nat.lt_or_ge (commonPrefixLength (pathSegs b) (pathSegs c))
          (pathSegs b).length with hlt | hge
        · -- the main segments are not a prefix of the target segments
          have hnp : ¬ pathSegs b <+: pathSegs c := by
            rw [← cpl_eq_left_iff]
            omega
          have hex : ∃ n, (pathSegs b).length -
              commonPrefixLength (pathSegs b) (pathSegs c) = n + 1 :=
            ⟨(pathSegs b).length - commonPrefixLength (pathSegs b) (pathSegs c) - 1, by omega⟩
          obtain ⟨n, hn⟩ := hex
          simp only [hn, List.replicate_succ, List.cons_append]
          obtain ⟨rest, hsh, hrshape⟩ := joinWith_cons_shape ['.', '.']
            (List.replicate n ['.', '.'] ++
              (pathSegs c).drop (commonPrefixLength (pathSegs b) (pathSegs c)))
          have h1 : (String.mk (joinWith '/' (['.', '.'] ::
              (List.replicate n ['.', '.'] ++
                (pathSegs c).drop (commonPrefixLength (pathSegs b) (pathSegs c))))) == ""
              : Bool) = false := by
            rw [← Bool.not_eq_true, string_mk_eq_empty_iff]
            exact joinWith_ne_nil _ _ (by simp)
          have h2 : posixIsAbsolute (String.mk (joinWith '/' (['.', '.'] ::
              (List.replicate n ['.', '.'] ++
                (pathSegs c).drop (commonPrefixLength (pathSegs b) (pathSegs c)))))) = false := by
            rw [posixIsAbsolute_mk, hsh]
            exact prefixChars_slash_false _ _ (by simp) (by decide)
          have h3 : (String.mk (joinWith '/' (['.', '.'] ::
              (List.replicate n ['.', '.'] ++
                (pathSegs c).drop (commonPrefixLength (pathSegs b) (pathSegs c))))) == ".."
              : Bool) = true ∨
              strStarts (String.mk (joinWith '/' (['.', '.'] ::
                (List.replicate n ['.', '.'] ++
                  (pathSegs c).drop (commonPrefixLength (pathSegs b) (pathSegs c))))))
                (".." ++ "/") = true := by
            rcases hrshape with hr | ⟨r, hr⟩
            · left
              rw [string_mk_eq_dotdot_iff, hsh, hr, List.append_nil]
            · right
              rw [strStarts]
              have hdata : ((".." ++ "/" : String)).data = ['.', '.', '/'] := by decide
              rw [hdata]
              show prefixChars ['.', '.', '/'] (String.mk (joinWith '/' (['.', '.'] ::
                (List.replicate n ['.', '.'] ++
                  (pathSegs c).drop (commonPrefixLength (pathSegs b) (pathSegs c)))))).data = true
              have hmkd : (String.mk (joinWith '/' (['.', '.'] ::
                  (List.replicate n ['.', '.'] ++
                    (pathSegs c).drop (commonPrefixLength (pathSegs b) (pathSegs c)))))).data =
                  joinWith '/' (['.', '.'] ::
                    (List.replicate n ['.', '.'] ++
                      (pathSegs c).drop (commonPrefixLength (pathSegs b) (pathSegs c)))) := rfl
              rw [prefixChars_dotdotslash_iff, hmkd, hsh, hr]
              exact ⟨r, rfl⟩
          simp only [h1, h2, Bool.false_eq_true, if_false]
          rcases h3 with h3 | h3
          · simp only [h3, Bool.true_or, if_true]
            simp [hnp]
          · simp only [h3, Bool.or_true, if_true]
            simp [hnp]
        · -- the main segments are a proper prefix of the target segments
          have hk : commonPrefixLength (pathSegs b) (pathSegs c) = (pathSegs b).length :=
            Nat.le_antisymm (cpl_le_left _ _) hge
          have hpre : pathSegs b <+: pathSegs c := (cpl_eq_left_iff _ _).mp hk
          have hlt2 : (pathSegs b).length < (pathSegs c).length :=
            Nat.lt_of_le_of_ne hpre.length_le (fun hl => heq (hpre.eq_of_length hl))
          have hdropne : (pathSegs c).drop (commonPrefixLength (pathSegs b) (pathSegs c)) ≠ [] := by
            intro hnil
            have hcg := congrArg List.length hnil
            rw [List.length_drop] at hcg
            simp only [List.length_nil] at hcg
            omega
          cases hdrop : (pathSegs c).drop (commonPrefixLength (pathSegs b) (pathSegs c)) with
          | nil => exact absurd hdrop hdropne
          | cons s0 ls =>
            have hs0mem : s0 ∈ pathSegs c := by
              have hmem : s0 ∈ (pathSegs c).drop
                  (commonPrefixLength (pathSegs b) (pathSegs c)) := by
                rw [hdrop]; simp
              exact (List.drop_suffix _ _).sublist.subset hmem
            obtain ⟨⟨hs0ne, hs0sl⟩, ⟨_, hs0dd⟩⟩ := pathSegs_clean c s0 hs0mem
            have hrep : List.replicate ((pathSegs b).length -
                commonPrefixLength (pathSegs b) (pathSegs c)) (['.', '.'] : List Char) = [] := by
              rw [hk, Nat.sub_self, List.replicate_zero]
            simp only [hrep, List.nil_append, hdrop]
            obtain ⟨rest, hsh, hrshape⟩ := joinWith_cons_shape s0 ls
            have h1 : (String.mk (joinWith '/' (s0 :: ls)) == "" : Bool) = false := by
              rw [← Bool.not_eq_true, string_mk_eq_empty_iff]
              exact joinWith_ne_nil _ _ hs0ne
            have h2 : posixIsAbsolute (String.mk (joinWith '/' (s0 :: ls))) = false := by
              rw [posixIsAbsolute_mk, hsh]
              exact prefixChars_slash_false _ _ hs0ne hs0sl
            have h3a : (String.mk (joinWith '/' (s0 :: ls)) == ".." : Bool) = false := by
              rw [← Bool.not_eq_true, string_mk_eq_dotdot_iff, hsh]
              exact append_ne_dotdot s0 rest hs0ne hs0dd hrshape
            have h3b : strStarts (String.mk (joinWith '/' (s0 :: ls))) (".." ++ "/") = false := by
              rw [strStarts]
              have hdata : ((".." ++ "/" : String)).data = ['.', '.', '/'] := by decide
              rw [hdata]
              show prefixChars ['.', '.', '/'] (String.mk (joinWith '/' (s0 :: ls))).data = false
              have hmkd : (String.mk (joinWith '/' (s0 :: ls))).data = joinWith '/' (s0 :: ls) :=
                rfl
              rw [hmkd, hsh]
              exact append_not_dotdotslash s0 rest hs0ne hs0sl hs0dd hrshape
            simp only [h1, h2, h3a, h3b, Bool.false_eq_true, Bool.or_self, if_false]
            simp [hpre, heq]
    · rw [Bool.not_eq_true] at hc
      simp [hb, hc]
  · rw [Bool.not_eq_true] at hb
    simp [hb]

theorem joinWith_length_lt : ∀ (F E : List (List Char)), E ≠ [] →
    (∀ s ∈ E, s ≠ []) →
    (joinWith '/' F).length < (joinWith '/' (F ++ E)).length
  | [], E, hE, hcl => by
    cases E with
    | nil => exact absurd rfl hE
    | cons e es =>
      obtain ⟨rest, hsh, _⟩ := joinWith_cons_shape e es
      have he : e ≠ [] := hcl e (by simp)
      have hep : 0 < e.length := List.length_pos.mpr he
      simp only [List.nil_append, joinWith, List.length_nil]
      rw [hsh]
      simp only [List.length_append]
      omega
  | [f], E, hE, hcl => by
    cases E with
    | nil => exact absurd rfl hE
    | cons e es =>
      rw [show ([f] ++ e :: es) = f :: e :: es from rfl,
        joinWith_cons '/' f (e :: es) (by simp)]
      simp [joinWith, List.length_append]
  | f :: g :: F, E, hE, hcl => by
    have ih := joinWith_length_lt (g :: F) E hE hcl
    rw [joinWith_cons '/' f (g :: F) (by simp),
      show ((f :: g :: F) ++ E) = f :: ((g :: F) ++ E) from rfl,
      joinWith_cons '/' f ((g :: F) ++ E) (by simp)]
    simp only [List.length_append, List.length_cons]
    omega

/-- A proper prefix at the segment level forces different resolved path
strings. -/
theorem posixResolve_ne_of_proper_prefix (cwd b c : String)
    (hb : posixIsAbsolute b = true) (hc : posixIsAbsolute c = true)
    (hpre : pathSegs b <+: pathSegs c) (hne : pathSegs b ≠ pathSegs c) :
    posixResolve cwd b ≠ posixResolve cwd c := by
  intro hEq
  obtain ⟨E, hE⟩ := hpre
  have hEne : E ≠ [] := by
    rintro rfl
    rw [List.append_nil] at hE
    exact hne hE
  have hcl : ∀ s ∈ E, s ≠ [] := by
    intro s hs
    have : s ∈ pathSegs c := by rw [← hE]; simp [hs]
    exact (pathSegs_clean c s this).1.1
  have hlen := joinWith_length_lt (pathSegs b) E hEne hcl
  rw [hE] at hlen
  have hdata : ('/' :: joinWith '/' (pathSegs b)) = ('/' :: joinWith '/' (pathSegs c)) := by
    have h1 : posixResolve cwd b = String.mk ('/' :: joinWith '/' (pathSegs b)) := by
      unfold posixResolve
      rw [resolveChars_of_abs _ _ ((posixIsAbsolute_iff b).mp hb)]
      rfl
    have h2 : posixResolve cwd c = String.mk ('/' :: joinWith '/' (pathSegs c)) := by
      unfold posixResolve
      rw [resolveChars_of_abs _ _ ((posixIsAbsolute_iff c).mp hc)]
      rfl
    have := h1 ▸ h2 ▸ hEq
    injection this
  injection hdata with _ hjoin
  rw [hjoin] at hlen
  omega

/-- C3: a target strictly inside the main worktree is refused by the guard
exactly when no registered path is supplied (the first two checks cannot
fire for such a target). -/
theorem assertRemovalSafe_nested_target (cwd : String) (i : RemovalSafetyInput)
    (h : isPathStrictlyWithin cwd ⟨i.mainPath, i.targetPath, .posix⟩ = true) :
    assertRemovalSafe .posix cwd i =
      (if optTruthy i.registeredPath then none
       else some "Refusing to remove an unregistered directory inside the main worktree.") := by
  obtain ⟨hm, ht, hpre, hne⟩ :=
    (isPathStrictlyWithin_posix_iff cwd i.mainPath i.targetPath).mp h
  have hkey : normalizePathKey .posix cwd i.targetPath ≠
      normalizePathKey .posix cwd i.mainPath := by
    show posixResolve cwd i.targetPath ≠ posixResolve cwd i.mainPath
    intro hEq
    exact posixResolve_ne_of_proper_prefix cwd i.mainPath i.targetPath hm ht hpre hne hEq.symm
  have hrev : isPathStrictlyWithin cwd ⟨i.targetPath, i.mainPath, .posix⟩ = false := by
    rw [Bool.eq_false_iff]
    intro hcontra
    obtain ⟨_, _, hpre2, hne2⟩ :=
      (isPathStrictlyWithin_posix_iff cwd i.targetPath i.mainPath).mp hcontra
    exact hne (hpre.eq_of_length (Nat.le_antisymm hpre.length_le hpre2.length_le))
  unfold assertRemovalSafe
  rw [if_neg hkey, if_neg (by rw [hrev]; simp)]
  by_cases hreg : optTruthy i.registeredPath = true
  · rw [if_neg (by rw [hreg, h]; simp), if_pos hreg]
  · rw [Bool.not_eq_true] at hreg
    rw [if_pos (by rw [hreg, h]; simp), if_neg (by rw [hreg]; simp)]

/-- Witness for C3 at concrete calls: a registered nested target passes the
guard, an unregistered one is refused. -/
theorem assertRemovalSafe_nested_target_witness :
    isPathStrictlyWithin "/" ⟨"/r", "/r/w", .posix⟩ = true ∧
    assertRemovalSafe .posix "/" ⟨"/r/w", "/r", some "/r/w"⟩ = none ∧
    assertRemovalSafe .posix "/" ⟨"/r/w", "/r", none⟩ =
      some "Refusing to remove an unregistered directory inside the main worktree." := by
  refine ⟨by decide, ?_, ?_⟩
  · have := assertRemovalSafe_nested_target "/" ⟨"/r/w", "/r", some "/r/w"⟩ (by decide)
    simpa using this
  · have := assertRemovalSafe_nested_target "/" ⟨"/r/w", "/r", none⟩ (by decide)
    simpa using this

/-- Remove a literal prefix from a string when present (one step of a
JavaScript anchored replace). -/
def stripPrefixStr (pre s : String) : String :=
  if strStarts s pre then String.mk (s.data.drop pre.data.length) else s

/-- normalizeBranchName from git-helpers.ts: trim, then strip the four
well-known reference prefixes in order. -/
def normalizeBranchName (name : String) : String :=
  stripPrefixStr "origin/" (stripPrefixStr "remotes/origin/"
    (stripPrefixStr "refs/remotes/origin/" (stripPrefixStr "refs/heads/" (jsTrim name))))

example : normalizeBranchName "refs/heads/feature/login" = "feature/login" := by decide
example : normalizeBranchName " origin/feature/login " = "feature/login" := by decide
example : normalizeBranchName "origin/" = "" := by decide

/-- containsParentDirectorySegment from resolve-worktree-target.ts: split
on either slash flavour and look for a dot-dot piece. -/
def containsParentDirectorySegment (input : String) : Bool :=
  (splitBy isWinSep input.data).contains ['.', '.']

example : containsParentDirectorySegment "a/../b" = true := by decide
example : containsParentDirectorySegment "a..b" = false := by decide

/-- The drive-path shape matched by normalizeGitPath's regular expression:
a slash, a letter, then either the end or a slash and a remainder. -/
def matchDrivePath (cs : List Char) : Option (Char × List Char) :=
  match cs with
  | '/' :: d :: rest =>
    if isWinLetter d then
      match rest with
      | [] => some (d, [])
      | '/' :: r => some (d, r)
      | _ => none
    else none
  | '/' :: [] => none
  | _ => none

/-- normalizeGitPath from normalize-git-path.ts: on win32, rewrite Cygwin
and MSYS drive spellings to native form; elsewhere return the input
unchanged. -/
def normalizeGitPath (platform : Platform) (gitPath : String) : String :=
  match platform with
  | .posix => gitPath
  | .win32 =>
    let t := jsTrim gitPath
    let attempt := if prefixChars "/cygdrive".data t.data then
        matchDrivePath (t.data.drop 9) else none
    let m := match attempt with
      | some r => some r
      | none => matchDrivePath t.data
    match m with
    | some (d, rest) =>
      String.mk (d.toUpper :: ':' :: '\\' :: rest.map (fun c => if c = '/' then '\\' else c))
    | none => t

example : normalizeGitPath .win32 "/cygdrive/c/Users/x" = "C:\\Users\\x" := by decide
example : normalizeGitPath .win32 "/c/tmp" = "C:\\tmp" := by decide
example : normalizeGitPath .posix "/c/tmp" = "/c/tmp" := by decide

/-- expandHomeDirectory from resolve-worktree-target.ts, instantiated at
the posix path API, with the process home directory passed explicitly. -/
def expandHomeDirectory (homedir : String) (input : String) : String :=
  if strStarts input "~/" || strStarts input "~\\" then
    posixJoin homedir (String.mk (input.data.drop 2))
  else input

/-- looksLikePathInput from resolve-worktree-target.ts.  The platform
argument stands for the runtime platform whose path.isAbsolute is
consulted first; Windows absolute spellings are recognized on every
platform. -/
def looksLikePathInput (platform : Platform) (input : String) : Bool :=
  if input == "" then false
  else if strStarts input "." then true
  else if strStarts input "~/" || strStarts input "~\\" then true
  else platformIsAbsolute platform input || win32IsAbsolute input

example : looksLikePathInput .posix "./wt" = true := by decide
example : looksLikePathInput .posix "../wt" = true := by decide
example : looksLikePathInput .posix ".git" = true := by decide
example : looksLikePathInput .posix "~/w" = true := by decide
example : looksLikePathInput .posix "C:\\w" = true := by decide
example : looksLikePathInput .posix "feature/login" = false := by decide

/-- One known working-tree entry, as parsed from the porcelain listing. -/
structure WorktreeEntry where
  path : String
  head : Option String
  branch : Option String
  isDetached : Bool
deriving DecidableEq

/-- Input of resolveWorktreeTarget. -/
structure ResolveWorktreeTargetInput where
  input : String
  cwd : String
  mainPath : String
  worktrees : List WorktreeEntry
deriving DecidableEq

/-- The tagged result of target resolution. -/
inductive ResolvedWorktreeTarget where
  | registered (worktree : WorktreeEntry) (isPathInput : Bool)
  | candidates (candidatePaths : List String) (resolvedInputPath : String)
      (isPathInput : Bool) (input : String)
  | ambiguous (message : String)
deriving DecidableEq

/-- The worktreesByBranch JavaScript Map, modelled as a last-insertion-wins
lookup.  Entries whose branch is absent or the empty string are falsy in
JavaScript and never inserted. -/
def branchLookup (worktrees : List WorktreeEntry) (key : String) : Option WorktreeEntry :=
  worktrees.foldl (fun acc w =>
    match w.branch with
    | some b => if b != "" && b == key then some w else acc
    | none => acc) none

/-- The worktreesByPath JavaScript Map keyed by normalizePathKey, modelled
as a last-insertion-wins lookup (posix instantiation; the cwd argument is
the process working directory normalizePathKey resolves against). -/
def pathLookup (cwd : String) (worktrees : List WorktreeEntry) (key : String) :
    Option WorktreeEntry :=
  worktrees.foldl (fun acc w =>
    if normalizePathKey .posix cwd w.path == normalizePathKey .posix cwd key then some w
    else acc) none

/-- resolveWorktreeTarget from resolve-worktree-target.ts, instantiated at
a posix platform (so the win32 basename lowering is off), with the process
home directory passed explicitly and the branch normalizer abstracted as a
parameter, so that the frame property "path-like inputs never consult
branch-name normalization" is statable.  The program instantiates the
normalizer with normalizeBranchName (see resolveWorktreeTarget below). -/
def resolveWorktreeTargetWith (nbf : String → String) (homedir : String)
    (p : ResolveWorktreeTargetInput) : ResolvedWorktreeTarget :=
  let trimmedInput := jsTrim p.input
  let isPathInput := looksLikePathInput .posix trimmedInput
  let normalizedBranch : Option String :=
    if isPathInput then none else some (nbf trimmedInput)
  let nbTruthy := match normalizedBranch with
    | some b => b != ""
    | none => false
  if nbTruthy && containsParentDirectorySegment (normalizedBranch.getD "") then
    .ambiguous ("Input '" ++ trimmedInput ++
      "' contains '..' path segments. Pass a full path or use --interactive.")
  else
    let resolvedInputPath := posixResolve p.cwd
      (if isPathInput then normalizeGitPath .posix (expandHomeDirectory homedir trimmedInput)
       else trimmedInput)
    let mainRepoName := posixBasename p.mainPath
    let parentDirectory := posixDirname p.mainPath
    let expectedPath := if nbTruthy then
        some (posixJoin parentDirectory (mainRepoName ++ "-" ++ normalizedBranch.getD ""))
      else none
    let hasPathSeparator := strContains trimmedInput '/' || strContains trimmedInput '\\'
    let siblingPath := if isPathInput || hasPathSeparator then none
      else some (posixJoin parentDirectory trimmedInput)
    let byBranch := if nbTruthy then branchLookup p.worktrees (normalizedBranch.getD "")
      else none
    match byBranch with
    | some w => .registered w isPathInput
    | none =>
      let directMatch := (pathLookup p.cwd p.worktrees resolvedInputPath).orElse (fun _ =>
        (match expectedPath with
         | some e => pathLookup p.cwd p.worktrees e
         | none => none).orElse (fun _ =>
          match siblingPath with
          | some s => pathLookup p.cwd p.worktrees s
          | none => none))
      match directMatch with
      | some w => .registered w isPathInput
      | none =>
        let basenameMatches := p.worktrees.filter (fun w => posixBasename w.path == trimmedInput)
        match basenameMatches with
        | [w] => .registered w isPathInput
        | [] =>
          .candidates
            (if isPathInput then [resolvedInputPath]
             else (expectedPath.toList ++ siblingPath.toList))
            resolvedInputPath isPathInput trimmedInput
        | _ => .ambiguous ("Multiple worktrees match '" ++ trimmedInput ++
            "'. Re-run with --interactive or pass a full path.")

/-- resolveWorktreeTarget with the program's branch normalizer. -/
def resolveWorktreeTarget (homedir : String) (p : ResolveWorktreeTargetInput) :
    ResolvedWorktreeTarget :=
  resolveWorktreeTargetWith normalizeBranchName homedir p

example : resolveWorktreeTarget "/home/u"
    ⟨"feature", "/r", "/r", [⟨"/r", none, some "main", false⟩, ⟨"/r-feature", none, some "feature", false⟩]⟩ =
    .registered ⟨"/r-feature", none, some "feature", false⟩ false := by decide
example : resolveWorktreeTarget "/home/u" ⟨"orphan", "/", "/r", []⟩ =
    .candidates ["/r-orphan", "/orphan"] "/orphan" false "orphan" := by decide
example : resolveWorktreeTarget "/home/u" ⟨"a/../b", "/", "/r", []⟩ =
    .ambiguous "Input 'a/../b' contains '..' path segments. Pass a full path or use --interactive." := by
  decide

/-- C6 counterexample: an input that begins with a tilde but not with a
tilde-separator is classified as a name rather than as path-like, and
branch-name handling is applied to it (the candidates are built from the
name route), contradicting the claimed begins-with-tilde rule. -/
theorem looksLikePathInput_tilde_counterexample :
    strStarts "~abc" "~" = true ∧ looksLikePathInput .posix "~abc" = false ∧
    resolveWorktreeTarget "/home/u" ⟨"~abc", "/", "/r", []⟩ =
      .candidates ["/r-~abc", "/~abc"] "/~abc" false "~abc" :=
  ⟨by decide, by decide, by decide⟩

/-- C6 (amended): the resolver classifies the trimmed input as path-like
exactly when it begins with a dot, with tilde-slash or tilde-backslash, or
is absolute under the runtime platform's rules or under the Windows rules;
and the branch normalizer never influences resolution of a path-like
input. -/
theorem looksLikePathInput_spec :
    (∀ (platform : Platform) (s : String),
      looksLikePathInput platform s =
        (strStarts s "." || (strStarts s "~/" || strStarts s "~\\") ||
          (platformIsAbsolute platform s || win32IsAbsolute s))) ∧
    (∀ (f g : String → String) (homedir : String) (p : ResolveWorktreeTargetInput),
      looksLikePathInput .posix (jsTrim p.input) = true →
      resolveWorktreeTargetWith f homedir p = resolveWorktreeTargetWith g homedir p) := by
  constructor
  · intro platform s
    unfold looksLikePathInput
    by_cases h0 : (s == "" : Bool) = true
    · rw [beq_iff_eq] at h0
      subst h0
      cases platform <;> decide
    · rw [Bool.not_eq_true] at h0
      cases hd : strStarts s "." <;> cases ht1 : strStarts s "~/" <;>
        cases ht2 : strStarts s "~\\" <;> simp [h0, hd, ht1, ht2]
  · intro f g homedir p hpl
    unfold resolveWorktreeTargetWith
    simp only [hpl, if_true]

/-- Witness for the amended C6 at a concrete path-like input: two different
branch normalizers yield the same resolution. -/
theorem looksLikePathInput_spec_witness :
    looksLikePathInput .posix (jsTrim "./wt") = true ∧
    resolveWorktreeTargetWith (fun s => s) "/home/u" ⟨"./wt", "/", "/r", []⟩ =
      resolveWorktreeTargetWith (fun _ => "zz") "/home/u" ⟨"./wt", "/", "/r", []⟩ :=
  ⟨by decide, looksLikePathInput_spec.2 (fun s => s) (fun _ => "zz") "/home/u"
    ⟨"./wt", "/", "/r", []⟩ (by decide)⟩

theorem branchLookup_foldl_no_match (ws : List WorktreeEntry) (nb : String)
    (h : ∀ e ∈ ws, ¬ e.branch = some nb) (acc : Option WorktreeEntry) :
    ws.foldl (fun acc w => match w.branch with
      | some b => if b != "" && b == nb then some w else acc
      | none => acc) acc = acc := by
  induction ws generalizing acc with
  | nil => rfl
  | cons x xs ih =>
    rw [List.foldl_cons]
    have hx := h x (by simp)
    have hstep : (match x.branch with
      | some b => if b != "" && b == nb then some x else acc
      | none => acc) = acc := by
      cases hb : x.branch with
      | none => rfl
      | some b =>
        have hbnb : (b == nb : Bool) = false := by
          rw [beq_eq_false_iff_ne]
          intro hh
          exact hx (by rw [hb, hh])
        simp [hbnb]
    rw [hstep]
    exact ih (fun e he => h e (List.mem_cons_of_mem x he)) acc

theorem branchLookup_of_filter_singleton (ws : List WorktreeEntry) (nb : String)
    (hnb : nb ≠ "") (w : WorktreeEntry) :
    ws.filter (fun e => e.branch == some nb) = [w] → branchLookup ws nb = some w := by
  unfold branchLookup
  induction ws with
  | nil => intro hf; simp at hf
  | cons x xs ih =>
    intro hf
    by_cases hx : (x.branch == some nb : Bool) = true
    · rw [List.filter_cons, if_pos hx] at hf
      injection hf with h1 h2
      subst h1
      rw [List.foldl_cons]
      have hxb : x.branch = some nb := by rwa [beq_iff_eq] at hx
      have hstep : (match x.branch with
        | some b => if b != "" && b == nb then some x else none
        | none => none) = some x := by
        rw [hxb]
        simp [hnb]
      rw [hstep]
      apply branchLookup_foldl_no_match xs nb _ (some x)
      intro e he hcontra
      have hmem : e ∈ xs.filter (fun e => e.branch == some nb) := by
        rw [List.mem_filter]
        exact ⟨he, by rw [hcontra]; simp⟩
      rw [h2] at hmem
      simp at hmem
    · rw [List.filter_cons, if_neg hx] at hf
      rw [List.foldl_cons]
      have hstep : (match x.branch with
        | some b => if b != "" && b == nb then some x else none
        | none => none) = none := by
        cases hb : x.branch with
        | none => rfl
        | some b =>
          have hbnb : (b == nb : Bool) = false := by
            rw [beq_eq_false_iff_ne]
            intro hh
            apply hx
            rw [hb, hh]
            simp
          simp [hbnb]
      rw [hstep]
      exact ih hf

/-- C7 counterexample: input origin-slash normalizes to the empty branch
name; an entry whose branch is the empty string is then the unique filter
match, yet resolution does not return it (the empty name is falsy and the
branch map never holds it). -/
theorem resolveWorktreeTarget_branch_empty_counterexample :
    ([⟨"/r-x", none, some "", false⟩] : List WorktreeEntry).filter
        (fun e => e.branch == some (normalizeBranchName (jsTrim "origin/"))) =
      [⟨"/r-x", none, some "", false⟩] ∧
    resolveWorktreeTarget "/home/u" ⟨"origin/", "/", "/r", [⟨"/r-x", none, some "", false⟩]⟩ =
      .candidates [] "/origin" false "origin/" :=
  ⟨by decide, by decide⟩

/-- C7 (amended): a name-like input whose normalized branch name is
nonempty, contains no dot-dot segment and equals the branch of exactly one
registered entry resolves to that entry, for every current working
directory. -/
theorem resolveWorktreeTarget_branch_match (homedir inputStr mainPath : String)
    (ws : List WorktreeEntry) (w : WorktreeEntry)
    (hname : looksLikePathInput .posix (jsTrim inputStr) = false)
    (hnb : normalizeBranchName (jsTrim inputStr) ≠ "")
    (hdd : containsParentDirectorySegment (normalizeBranchName (jsTrim inputStr)) = false)
    (hone : ws.filter (fun e => e.branch == some (normalizeBranchName (jsTrim inputStr)))
      = [w]) :
    ∀ cwd : String, resolveWorktreeTarget homedir ⟨inputStr, cwd, mainPath, ws⟩ =
      .registered w false := by
  intro cwd
  have hbl := branchLookup_of_filter_singleton ws (normalizeBranchName (jsTrim inputStr))
    hnb w hone
  have hnbt : (normalizeBranchName (jsTrim inputStr) != "" : Bool) = true := by
    rwa [bne_iff_ne]
  unfold resolveWorktreeTarget resolveWorktreeTargetWith
  simp only [hname, Bool.false_eq_true, if_false, hnbt, Option.getD, hdd, Bool.and_false,
    if_true, hbl]

theorem strContains_false_not_mem (s : String) (c : Char) (h : strContains s c = false) :
    c ∉ s.data := by
  intro hmem
  unfold strContains at h
  rw [Bool.eq_false_iff] at h
  exact h (by simpa using hmem)

theorem jsTrim_data (s : String) :
    (jsTrim s).data = List.rdropWhile isJsWhitespace (s.data.dropWhile isJsWhitespace) := rfl

theorem jsTrim_idem (s : String) : jsTrim (jsTrim s) = jsTrim s := by
  have hdw : (jsTrim s).data.dropWhile isJsWhitespace = (jsTrim s).data := by
    rw [jsTrim_data]
    rcases hcase : List.rdropWhile isJsWhitespace (s.data.dropWhile isJsWhitespace)
      with _ | ⟨m0, m'⟩
    · rfl
    · obtain ⟨t, ht⟩ := List.rdropWhile_prefix isJsWhitespace
        (s.data.dropWhile isJsWhitespace)
      rw [hcase] at ht
      have hlen : 0 < (s.data.dropWhile isJsWhitespace).length := by
        rw [← ht]; simp
      have hnp := List.dropWhile_get_zero_not (p := isJsWhitespace) s.data hlen
      have hget : (s.data.dropWhile isJsWhitespace).get ⟨0, hlen⟩ = m0 := by
        have : (s.data.dropWhile isJsWhitespace) = m0 :: (m' ++ t) := by
          rw [← ht]; simp
        simp [this]
      rw [hget] at hnp
      rw [List.dropWhile_cons, if_neg hnp]
  have hfront : jsTrim (jsTrim s) =
      String.mk (List.rdropWhile isJsWhitespace
        ((jsTrim s).data.dropWhile isJsWhitespace)) := rfl
  rw [hfront, hdw, jsTrim_data, List.rdropWhile_idempotent, ← jsTrim_data]

theorem stripPrefixStr_of_no_slash (pre t : String) (hpre : '/' ∈ pre.data)
    (ht : '/' ∉ t.data) : stripPrefixStr pre t = t := by
  unfold stripPrefixStr
  rw [if_neg]
  intro hcontra
  rw [strStarts, prefixChars_iff] at hcontra
  exact ht (hcontra.sublist.subset hpre)

/-- A separator-free trimmed name passes through the branch normalizer
unchanged: every strippable reference prefix contains a slash. -/
theorem normalizeBranchName_of_no_slash (t : String) (hslash : '/' ∉ t.data)
    (htrim : jsTrim t = t) : normalizeBranchName t = t := by
  unfold normalizeBranchName
  rw [htrim,
    stripPrefixStr_of_no_slash "refs/heads/" t (by decide) hslash,
    stripPrefixStr_of_no_slash "refs/remotes/origin/" t (by decide) hslash,
    stripPrefixStr_of_no_slash "remotes/origin/" t (by decide) hslash,
    stripPrefixStr_of_no_slash "origin/" t (by decide) hslash]

theorem splitBy_append_sep (sep : Char → Bool) (c : Char) (hc : sep c = true) :
    ∀ (a b : List Char), splitBy sep (a ++ c :: b) = splitBy sep a ++ splitBy sep b := by
  intro a
  induction a with
  | nil =>
    intro b
    rw [List.nil_append, splitBy_cons_sep sep c b hc]
    rfl
  | cons x xs ih =>
    intro b
    by_cases hx : sep x = true
    · rw [List.cons_append, splitBy_cons_sep sep x _ hx, splitBy_cons_sep sep x xs hx, ih b]
      rfl
    · rw [Bool.not_eq_true] at hx
      rw [List.cons_append, splitBy_cons_not sep x _ hx, splitBy_cons_not sep x xs hx, ih b]
      cases hs : splitBy sep xs with
      | nil => exact absurd hs (splitBy_ne_nil sep xs)
      | cons s ss => simp

theorem segsOf_append_slash (a b : List Char) :
    segsOf (a ++ '/' :: b) = segsOf a ++ segsOf b := by
  unfold segsOf
  rw [splitBy_append_sep (· == '/') '/' (by decide) a b, List.filter_append]

theorem segsOf_clean_singleton (xd : List Char) (h0 : xd ≠ []) (hsl : '/' ∉ xd) :
    segsOf xd = [xd] := by
  unfold segsOf
  have hclean : ∀ c ∈ xd, ((· == '/') c) = false := by
    intro c hc
    simp only [beq_eq_false_iff_ne]
    intro hcc
    exact hsl (hcc ▸ hc)
  have hsp := splitBy_append_clean (· == '/') xd [] hclean
  rw [List.append_nil] at hsp
  rw [hsp]
  simp [splitBy, h0]

theorem normSegs_append_plain (allow : Bool) (L : List (List Char)) (xd : List Char)
    (h : PlainSeg xd) :
    normSegs allow (L ++ [xd]) = normSegs allow L ++ [xd] := by
  unfold normSegs
  rw [List.foldl_append, List.foldl_cons, segStep_plain allow _ xd h, List.foldl_nil]
  simp

theorem joinWith_append_singleton (x : List Char) :
    ∀ (L : List (List Char)),
    joinWith '/' (L ++ [x]) = joinWith '/' L ++ (if L = [] then [] else ['/']) ++ x
  | [] => by simp [joinWith]
  | [l] => by simp [joinWith]
  | l :: l2 :: L2 => by
    have ih := joinWith_append_singleton x (l2 :: L2)
    rw [show ((l :: l2 :: L2) ++ [x]) = l :: ((l2 :: L2) ++ [x]) from rfl,
      joinWith_cons '/' l ((l2 :: L2) ++ [x]) (by simp),
      joinWith_cons '/' l (l2 :: L2) (by simp), ih]
    simp

theorem posixBasename_no_slash (p : String) : '/' ∉ (posixBasename p).data := by
  unfold posixBasename
  cases h : (segsOf p.data).getLast? with
  | none => simp
  | some s =>
    have hmem : s ∈ (segsOf p.data).getLast? := by rw [h]; rfl
    obtain ⟨hne, hx⟩ := List.mem_getLast?_eq_getLast hmem
    have : s ∈ segsOf p.data := hx ▸ List.getLast_mem hne
    exact (segsOf_mem p.data s this).2

theorem posixDirname_ne_empty (p : String) : posixDirname p ≠ "" := by
  unfold posixDirname
  by_cases h0 : p = ""
  · simp [h0]
  · rw [if_neg h0]
    simp only []
    split
    · split
      · intro hcontra; exact absurd hcontra (by decide)
      · intro hcontra; exact absurd hcontra (by decide)
    · split
      · intro hcontra; exact absurd hcontra (by decide)
      · rename_i hne _
        intro hcontra
        have hdata := congrArg String.data hcontra
        have htake : List.take (List.dropWhile (fun x => x != '/')
            (List.dropWhile (fun x => x == '/') (List.drop 1 p.data).reverse)).length p.data
            = [] := by
          simpa using hdata
        have hor : (List.dropWhile (fun x => x != '/')
            (List.dropWhile (fun x => x == '/') (List.drop 1 p.data).reverse)).length = 0 ∨
            p.data = [] := by simpa [List.take_eq_nil_iff] using htake
        rcases hor with hlen | hnil
        · have hnilr : (List.dropWhile (fun x => x != '/')
              (List.dropWhile (fun x => x == '/') (List.drop 1 p.data).reverse)) = [] :=
            List.eq_nil_of_length_eq_zero hlen
          exact hne (by rw [hnilr]; rfl)
        · exact h0 (by rw [show p = String.mk p.data from rfl, hnil])

theorem prefixChars_slash_append (a b : List Char) (ha : a ≠ []) :
    prefixChars ['/'] (a ++ b) = prefixChars ['/'] a := by
  cases a with
  | nil => exact absurd rfl ha
  | cons c a2 => simp [prefixChars]

theorem posixJoin_data (parent x : String) (hp : parent ≠ "") (hx0 : x.data ≠ [])
    (hxsl : '/' ∉ x.data) (hxp : PlainSeg x.data) :
    (posixJoin parent x).data =
      (if prefixChars ['/'] parent.data = true then ['/'] else []) ++
        joinWith '/' (normSegs (!prefixChars ['/'] parent.data) (segsOf parent.data) ++
          [x.data]) := by
  have hpd : parent.data ≠ [] := by
    intro h
    exact hp (by rw [show parent = String.mk parent.data from rfl, h])
  have hxs : x ≠ "" := by
    intro h
    rw [h] at hx0
    exact hx0 rfl
  have hqd : (parent ++ "/" ++ x).data = parent.data ++ '/' :: x.data := by
    simp [String.data_append]
  have hq : (parent ++ "/" ++ x) ≠ "" := by
    intro h
    have hd := congrArg String.data h
    rw [hqd] at hd
    simp at hd
  have habs : prefixChars ['/'] ((parent ++ "/" ++ x).data) = prefixChars ['/'] parent.data := by
    rw [hqd]
    exact prefixChars_slash_append _ _ hpd
  have htrail : prefixChars ['/'] ((parent ++ "/" ++ x).data).reverse = false := by
    rw [hqd]
    have hrev : (parent.data ++ '/' :: x.data).reverse =
        x.data.reverse ++ ('/' :: parent.data.reverse) := by
      simp
    rw [hrev]
    have hxrev : x.data.reverse ≠ [] := by simpa using hx0
    have hnoslash : '/' ∉ x.data.reverse := by simpa using hxsl
    exact prefixChars_slash_false x.data.reverse _ hxrev hnoslash
  have hsegs : segsOf ((parent ++ "/" ++ x).data) = segsOf parent.data ++ [x.data] := by
    rw [hqd, segsOf_append_slash, segsOf_clean_singleton x.data hx0 hxsl]
  unfold posixJoin
  have hfilter : ([parent, x].filter (fun s => s != "")) = [parent, x] := by
    simp [hp, hxs]
  rw [hfilter]
  rw [if_neg (by simp)]
  rw [show String.intercalate "/" [parent, x] = parent ++ "/" ++ x from rfl]
  unfold posixNormalize
  rw [if_neg hq]
  simp only [habs, htrail, hsegs]
  rw [normSegs_append_plain _ _ _ hxp]
  have hbody : (joinWith '/' (normSegs (!prefixChars ['/'] parent.data)
      (segsOf parent.data) ++ [x.data])).isEmpty = false := by
    rw [joinWith_append_singleton]
    simp [hx0]
  rw [hbody]
  simp only [Bool.false_eq_true, if_false]
  by_cases ha : prefixChars ['/'] parent.data = true
  · rw [ha]
    simp
  · rw [Bool.not_eq_true] at ha
    rw [ha]
    simp

theorem posixJoin_seg_ne (parent x y : String) (hp : parent ≠ "")
    (hx0 : x.data ≠ []) (hxsl : '/' ∉ x.data) (hxp : PlainSeg x.data)
    (hy0 : y.data ≠ []) (hysl : '/' ∉ y.data) (hyp : PlainSeg y.data)
    (hxy : x ≠ y) : posixJoin parent x ≠ posixJoin parent y := by
  intro hEq
  have hdx := posixJoin_data parent x hp hx0 hxsl hxp
  have hdy := posixJoin_data parent y hp hy0 hysl hyp
  have hd := congrArg String.data hEq
  rw [hdx, hdy] at hd
  have h2 := List.append_cancel_left hd
  rw [joinWith_append_singleton, joinWith_append_singleton] at h2
  have h3 := List.append_cancel_left h2
  exact hxy (by rw [show x = String.mk x.data from rfl, h3])

theorem append_dash_plain (u v : List Char) : PlainSeg (u ++ '-' :: v) := by
  constructor
  · intro h
    cases u with
    | nil =>
      injection h with h1 _
      exact absurd h1 (by decide)
    | cons c u2 =>
      injection h with _ h2
      exact absurd h2 (by simp)
  · intro h
    cases u with
    | nil =>
      injection h with h1 _
      exact absurd h1 (by decide)
    | cons c u2 =>
      cases u2 with
      | nil =>
        injection h with _ h2
        injection h2 with h3 _
        exact absurd h3 (by decide)
      | cons d u3 =>
        injection h with _ h2
        injection h2 with _ h3
        exact absurd h3 (by simp)

theorem looksLike_false_not_dot (t : String) (h : looksLikePathInput .posix t = false)
    (hne : t ≠ "") : strStarts t "." = false := by
  unfold looksLikePathInput at h
  rw [if_neg (by simp [hne])] at h
  by_cases hd : strStarts t "." = true
  · rw [if_pos hd] at h
    exact absurd h (by decide)
  · rwa [Bool.not_eq_true] at hd

theorem plainSeg_of_not_dot_start (t : String) (hdot : strStarts t "." = false) :
    PlainSeg t.data := by
  constructor
  · intro h
    have htrue : strStarts t "." = true := by
      rw [strStarts, show ("." : String).data = ['.'] from rfl, h]
      decide
    rw [hdot] at htrue
    exact absurd htrue (by decide)
  · intro h
    have htrue : strStarts t "." = true := by
      rw [strStarts, show ("." : String).data = ['.'] from rfl, h]
      decide
    rw [hdot] at htrue
    exact absurd htrue (by decide)

/-- C8 counterexample: the input origin-slash is name-like with an empty
normalized name and no registered match, so the claim predicts the
conventional sibling path, yet the code returns an empty candidate list
(the empty normalized name is falsy and produces no conventional path). -/
theorem resolveWorktreeTarget_candidates_counterexample :
    resolveWorktreeTarget "/home/u" ⟨"origin/", "/", "/r", []⟩ =
      .candidates [] "/origin" false "origin/" ∧
    posixJoin (posixDirname "/r") (posixBasename "/r" ++ "-" ++
      normalizeBranchName (jsTrim "origin/")) = "/r-" :=
  ⟨by decide, by decide⟩

/-- C8 (amended): a name-like input free of dot-dot segments that matches
no registered entry by branch, by path, or by basename yields Candidates
holding the conventional sibling path (only when the normalized name is
nonempty) followed by the literal sibling path (only when the input has no
path separator), in that order; and the two candidates are distinct
whenever both are present. -/
theorem resolveWorktreeTarget_no_match (homedir inputStr cwd mainPath : String)
    (ws : List WorktreeEntry)
    (hname : looksLikePathInput .posix (jsTrim inputStr) = false)
    (hdd : containsParentDirectorySegment (normalizeBranchName (jsTrim inputStr)) = false)
    (hbr : branchLookup ws (normalizeBranchName (jsTrim inputStr)) = none)
    (hrp : pathLookup cwd ws (posixResolve cwd (jsTrim inputStr)) = none)
    (hep : pathLookup cwd ws (posixJoin (posixDirname mainPath)
      (posixBasename mainPath ++ "-" ++ normalizeBranchName (jsTrim inputStr))) = none)
    (hsp : pathLookup cwd ws (posixJoin (posixDirname mainPath) (jsTrim inputStr)) = none)
    (hbm : ws.filter (fun w => posixBasename w.path == jsTrim inputStr) = []) :
    resolveWorktreeTarget homedir ⟨inputStr, cwd, mainPath, ws⟩ =
      .candidates
        ((if normalizeBranchName (jsTrim inputStr) = "" then []
          else [posixJoin (posixDirname mainPath)
            (posixBasename mainPath ++ "-" ++ normalizeBranchName (jsTrim inputStr))]) ++
         (if (strContains (jsTrim inputStr) '/' || strContains (jsTrim inputStr) '\\') = true
          then []
          else [posixJoin (posixDirname mainPath) (jsTrim inputStr)]))
        (posixResolve cwd (jsTrim inputStr)) false (jsTrim inputStr) ∧
    (normalizeBranchName (jsTrim inputStr) ≠ "" →
      (strContains (jsTrim inputStr) '/' || strContains (jsTrim inputStr) '\\') = false →
      posixJoin (posixDirname mainPath)
        (posixBasename mainPath ++ "-" ++ normalizeBranchName (jsTrim inputStr)) ≠
      posixJoin (posixDirname mainPath) (jsTrim inputStr)) := by
  constructor
  · unfold resolveWorktreeTarget resolveWorktreeTargetWith
    cases hnb : (normalizeBranchName (jsTrim inputStr) != "" : Bool) with
    | false =>
      have hnbeq : normalizeBranchName (jsTrim inputStr) = "" := by
        rw [bne_eq_false_iff_eq] at hnb
        exact hnb
      cases hsep : (strContains (jsTrim inputStr) '/' || strContains (jsTrim inputStr) '\\') with
      | false =>
        simp only [hname, Bool.false_eq_true, if_false, hnb, Bool.false_and, hrp, hsp,
          Option.getD, hbm, hsep, Bool.false_or, if_true, hnbeq, Option.none_orElse,
          Option.toList]
        simp [hrp, hsp, hbm, Option.orElse, hnbeq]
      | true =>
        simp only [hname, Bool.false_eq_true, if_false, hnb, Bool.false_and, hrp,
          Option.getD, hbm, hsep, Bool.false_or, hnbeq]
        simp [hrp, hbm, Option.orElse, hnbeq]
    | true =>
      have hnbne : normalizeBranchName (jsTrim inputStr) ≠ "" := by
        rwa [bne_iff_ne] at hnb
      cases hsep : (strContains (jsTrim inputStr) '/' || strContains (jsTrim inputStr) '\\') with
      | false =>
        simp only [hname, Bool.false_eq_true, if_false, hnb, Bool.true_and, hdd,
          Bool.false_eq_true, if_false, Option.getD, hbr, hrp, hep, hsp, hbm, hsep,
          Bool.false_or]
        simp [hbr, hrp, hep, hsp, hbm, Option.orElse, hnbne]
      | true =>
        simp only [hname, Bool.false_eq_true, if_false, hnb, Bool.true_and, hdd,
          Option.getD, hbr, hrp, hep, hbm, hsep]
        simp [hbr, hrp, hep, hbm, Option.orElse, hnbne]
  · intro hnb hsep
    have httrim : jsTrim (jsTrim inputStr) = jsTrim inputStr := jsTrim_idem inputStr
    have hsl : strContains (jsTrim inputStr) '/' = false := by
      rcases Bool.or_eq_false_iff.mp hsep with ⟨h1, _⟩
      exact h1
    have hslash : '/' ∉ (jsTrim inputStr).data :=
      strContains_false_not_mem _ _ hsl
    have hnbt : normalizeBranchName (jsTrim inputStr) = jsTrim inputStr :=
      normalizeBranchName_of_no_slash (jsTrim inputStr) hslash httrim
    have htne : jsTrim inputStr ≠ "" := by
      intro h
      exact hnb (by rw [hnbt, h])
    have htd : (jsTrim inputStr).data ≠ [] := by
      intro h
      exact htne (by rw [show jsTrim inputStr = String.mk (jsTrim inputStr).data from rfl, h])
    have hdot : strStarts (jsTrim inputStr) "." = false :=
      looksLike_false_not_dot _ hname htne
    have htplain : PlainSeg (jsTrim inputStr).data := plainSeg_of_not_dot_start _ hdot
    rw [hnbt]
    have hadata : (posixBasename mainPath ++ "-" ++ jsTrim inputStr).data =
        (posixBasename mainPath).data ++ '-' :: (jsTrim inputStr).data := by
      simp [String.data_append]
    apply posixJoin_seg_ne (posixDirname mainPath) _ _ (posixDirname_ne_empty mainPath)
    · rw [hadata]
      simp
    · rw [hadata]
      intro hmem
      rcases List.mem_append.mp hmem with h | h
      · exact posixBasename_no_slash mainPath h
      · rcases List.mem_cons.mp h with h | h
        · exact absurd h (by decide)
        · exact hslash h
    · rw [hadata]
      exact append_dash_plain _ _
    · exact htd
    · exact hslash
    · exact htplain
    · intro hEq
      have hd := congrArg String.data hEq
      rw [hadata] at hd
      have hlen := congrArg List.length hd
      simp [List.length_append] at hlen
      omega

/-- Witness for the amended C7 at the spec's scenario A, with a current
working directory unrelated to the repository. -/
theorem resolveWorktreeTarget_branch_match_witness :
    looksLikePathInput .posix (jsTrim "feature") = false ∧
    normalizeBranchName (jsTrim "feature") ≠ "" ∧
    resolveWorktreeTarget "/home/u" ⟨"feature", "/somewhere/else", "/r",
      [⟨"/r", none, some "main", false⟩, ⟨"/r-feature", none, some "feature", false⟩]⟩ =
      .registered ⟨"/r-feature", none, some "feature", false⟩ false :=
  ⟨by decide, by decide,
    resolveWorktreeTarget_branch_match "/home/u" "feature" "/r"
      [⟨"/r", none, some "main", false⟩, ⟨"/r-feature", none, some "feature", false⟩]
      ⟨"/r-feature", none, some "feature", false⟩
      (by decide) (by decide) (by decide) (by decide) "/somewhere/else"⟩

/-- Witness for the amended C8 at the spec's scenario B: input orphan with
no registrations yields the conventional candidate followed by the literal
sibling, and the two are distinct. -/
theorem resolveWorktreeTarget_no_match_witness :
    resolveWorktreeTarget "/home/u" ⟨"orphan", "/", "/r", []⟩ =
      .candidates ["/r-orphan", "/orphan"] "/orphan" false "orphan" ∧
    posixJoin (posixDirname "/r") (posixBasename "/r" ++ "-" ++
        normalizeBranchName (jsTrim "orphan")) ≠
      posixJoin (posixDirname "/r") (jsTrim "orphan") := by
  have h := resolveWorktreeTarget_no_match "/home/u" "orphan" "/" "/r" []
    (by decide) (by decide) (by decide) (by decide) (by decide) (by decide) (by decide)
  constructor
  · rw [h.1]
    decide
  · exact h.2 (by decide) (by decide)

/-- Split the porcelain output on NUL or newline, as the parser's regular
expression does. -/
def splitLines (output : String) : List String :=
  (splitBy (fun c => c = '\x00' || c = '\n') output.data).map String.mk

/-- The value of a porcelain attribute line: drop the keyword, drop the
following whitespace run matched by the anchored replace, then trim. -/
def lineValue (keyword line : String) : String :=
  jsTrim (String.mk ((line.data.drop keyword.data.length).dropWhile isJsWhitespace))

/-- One line of parseWorktreeListPorcelain's loop, acting on the
accumulated entries and the entry under construction. -/
def parseStep (st : List WorktreeEntry × Option WorktreeEntry) (line : String) :
    List WorktreeEntry × Option WorktreeEntry :=
  if strStarts line "worktree " then
    (st.1 ++ st.2.toList,
      some { path := lineValue "worktree" line, head := none, branch := none,
             isDetached := false })
  else
    match st.2 with
    | none => st
    | some cur =>
      if strStarts line "HEAD " then
        let h := lineValue "HEAD" line
        (st.1, some { cur with head := if h == "" then none else some h })
      else if strStarts line "branch " then
        let raw := lineValue "branch" line
        (st.1, some { cur with
          branch := if raw == "" then none else some (normalizeBranchName raw) })
      else if jsTrim line == "detached" then
        (st.1, some { cur with isDetached := true, branch := none })
      else st

/-- The parsed porcelain listing: the main path is the first entry's. -/
structure ParsedWorktreeList where
  mainPath : String
  worktrees : List WorktreeEntry
deriving DecidableEq

/-- parseWorktreeListPorcelain from parse-worktree-list.ts. -/
def parseWorktreeListPorcelain (output : String) : ParsedWorktreeList :=
  let final := (splitLines output).foldl parseStep ([], none)
  let worktrees := final.1 ++ final.2.toList
  { mainPath := ((worktrees.head?).map WorktreeEntry.path).getD "", worktrees }

example : (parseWorktreeListPorcelain
    "worktree /a\nHEAD 1234\nbranch refs/heads/x\n\nworktree /b\ndetached").worktrees =
    [⟨"/a", some "1234", some "x", false⟩, ⟨"/b", none, none, true⟩] := by decide
example : (parseWorktreeListPorcelain "worktree /a\nbranch refs/heads/x\ndetached").worktrees =
    [⟨"/a", none, none, true⟩] := by decide

/-- Does the line carry a branch attribute? -/
def branchLine (l : String) : Bool := strStarts l "branch "

/-- Is the line a detached marker? -/
def detachedLine (l : String) : Bool := jsTrim l == "detached"

/-- Does the line open a new stanza? -/
def worktreeLine (l : String) : Bool := strStarts l "worktree "

/-- No branch line occurs after a detached line within the same stanza,
that is, before the next worktree line (true of git's porcelain output,
where the two are mutually exclusive per entry). -/
def noBranchAfterDetachedInStanza : List String → Bool
  | [] => true
  | l :: ls => (!detachedLine l ||
      (ls.takeWhile (fun x => !worktreeLine x)).all (fun x => !branchLine x)) &&
    noBranchAfterDetachedInStanza ls

/-- C9 counterexample: a branch line after a detached line leaves the
entry detached with a branch set, violating the claimed invariant. -/
theorem parseWorktreeListPorcelain_detached_counterexample :
    (parseWorktreeListPorcelain "worktree /a\ndetached\nbranch refs/heads/x").worktrees =
      [⟨"/a", none, some "x", true⟩] ∧
    ((parseWorktreeListPorcelain "worktree /a\ndetached\nbranch refs/heads/x").worktrees.all
      (fun e => !e.isDetached || e.branch == none)) = false :=
  ⟨by decide, by decide⟩

theorem parse_fold_inv : ∀ (lines : List String) (acc : List WorktreeEntry)
    (cur : Option WorktreeEntry),
    noBranchAfterDetachedInStanza lines = true →
    (∀ e ∈ acc, e.isDetached = true → e.branch = none) →
    (∀ c, cur = some c → (c.isDetached = true → c.branch = none) ∧
      (c.isDetached = true →
        ((lines.takeWhile (fun x => !worktreeLine x)).all (fun x => !branchLine x)) = true)) →
    ∀ e ∈ (lines.foldl parseStep (acc, cur)).1 ++
      (lines.foldl parseStep (acc, cur)).2.toList,
      e.isDetached = true → e.branch = none := by
  intro lines
  induction lines with
  | nil =>
    intro acc cur _ hacc hcur e he
    rw [List.foldl_nil] at he
    rcases List.mem_append.mp he with h | h
    · exact hacc e h
    · cases cur with
      | none => simp at h
      | some c =>
        have := hcur c rfl
        simp at h
        exact h ▸ this.1
  | cons l ls ih =>
    intro acc cur hbad hacc hcur e he
    rw [noBranchAfterDetachedInStanza, Bool.and_eq_true] at hbad
    obtain ⟨hb1, hb2⟩ := hbad
    rw [List.foldl_cons] at he
    by_cases hw : strStarts l "worktree " = true
    · have hstep : parseStep (acc, cur) l =
          (acc ++ cur.toList,
            some { path := lineValue "worktree" l, head := none, branch := none,
                   isDetached := false }) := by
        simp [parseStep, hw]
      rw [hstep] at he
      refine ih (acc ++ cur.toList) _ hb2 ?_ ?_ e he
      · intro x hx
        rcases List.mem_append.mp hx with h | h
        · exact hacc x h
        · cases cur with
          | none => simp at h
          | some c =>
            have := hcur c rfl
            simp at h
            exact h ▸ this.1
      · intro c hc
        injection hc with hc
        constructor
        · intro hdet
          rw [← hc] at hdet
          simp at hdet
        · intro hdet
          rw [← hc] at hdet
          simp at hdet
    · rw [Bool.not_eq_true] at hw
      cases hcurcase : cur with
      | none =>
        have hstep : parseStep (acc, cur) l = (acc, cur) := by
          simp [parseStep, hw, hcurcase]
        rw [hstep] at he
        refine ih acc cur hb2 hacc ?_ e he
        intro c hc
        rw [hcurcase] at hc
        simp at hc
      | some c =>
        have hcc := hcur c hcurcase
        by_cases hh : strStarts l "HEAD " = true
        · have hstep : parseStep (acc, cur) l =
              (acc, some { c with head := (if lineValue "HEAD" l == "" then none
                else some (lineValue "HEAD" l)) }) := by
            simp [parseStep, hw, hcurcase, hh]
          rw [hstep] at he
          refine ih acc _ hb2 hacc ?_ e he
          intro c2 hc2
          injection hc2 with hc2
          rw [← hc2]
          refine ⟨fun hdet => hcc.1 hdet, fun hdet => ?_⟩
          have := hcc.2 hdet
          rw [List.takeWhile_cons_of_pos (by simp [worktreeLine, hw]),
            List.all_cons, Bool.and_eq_true] at this
          exact this.2
        · rw [Bool.not_eq_true] at hh
          by_cases hbr : strStarts l "branch " = true
          · have hdetfalse : c.isDetached = false := by
              by_contra hcon
              rw [Bool.not_eq_false] at hcon
              have := hcc.2 hcon
              rw [List.takeWhile_cons_of_pos (by simp [worktreeLine, hw]),
                List.all_cons, Bool.and_eq_true] at this
              have hB : branchLine l = true := hbr
              rw [hB] at this
              exact absurd this.1 (by decide)
            have hstep : parseStep (acc, cur) l =
                (acc, some { c with branch := (if lineValue "branch" l == "" then none
                  else some (normalizeBranchName (lineValue "branch" l))) }) := by
              simp [parseStep, hw, hcurcase, hh, hbr]
            rw [hstep] at he
            refine ih acc _ hb2 hacc ?_ e he
            intro c2 hc2
            injection hc2 with hc2
            rw [← hc2]
            constructor
            · intro hdet
              simp only at hdet
              rw [hdetfalse] at hdet
              exact absurd hdet (by decide)
            · intro hdet
              simp only at hdet
              rw [hdetfalse] at hdet
              exact absurd hdet (by decide)
          · rw [Bool.not_eq_true] at hbr
            by_cases hdet : (jsTrim l == "detached" : Bool) = true
            · have hstep : parseStep (acc, cur) l =
                  (acc, some { c with isDetached := true, branch := none }) := by
                simp [parseStep, hw, hcurcase, hh, hbr, hdet]
              rw [hstep] at he
              refine ih acc _ hb2 hacc ?_ e he
              intro c2 hc2
              injection hc2 with hc2
              rw [← hc2]
              refine ⟨fun _ => rfl, fun _ => ?_⟩
              have hD : detachedLine l = true := hdet
              rw [hD] at hb1
              simpa using hb1
            · rw [Bool.not_eq_true] at hdet
              have hstep : parseStep (acc, cur) l = (acc, cur) := by
                simp [parseStep, hw, hcurcase, hh, hbr, hdet]
              rw [hstep] at he
              refine ih acc cur hb2 hacc ?_ e he
              intro c2 hc2
              rw [hcurcase] at hc2
              injection hc2 with hc2
              rw [← hc2]
              refine ⟨hcc.1, fun hdet2 => ?_⟩
              have := hcc.2 hdet2
              rw [List.takeWhile_cons_of_pos (by simp [worktreeLine, hw]),
                List.all_cons, Bool.and_eq_true] at this
              exact this.2

/-- C9 (amended): whenever no stanza holds a branch line after a detached
line -- no branch attribute follows a detached marker before the next
worktree line, as in git's porcelain format, where branch and detached
are mutually exclusive per entry -- every detached entry parses with no
branch. -/
theorem parseWorktreeListPorcelain_detached_no_branch (output : String)
    (h : noBranchAfterDetachedInStanza (splitLines output) = true) :
    ((parseWorktreeListPorcelain output).worktrees.all
      (fun e => !e.isDetached || e.branch == none)) = true := by
  rw [List.all_eq_true]
  intro e he
  have hmem : e ∈ ((splitLines output).foldl parseStep ([], none)).1 ++
      ((splitLines output).foldl parseStep ([], none)).2.toList := by
    simpa [parseWorktreeListPorcelain] using he
  have hinv := parse_fold_inv (splitLines output) [] none h (by simp)
    (by intro c hc; simp at hc) e hmem
  cases hd : e.isDetached with
  | false => simp
  | true =>
    have := hinv hd
    simp [this]

/-- Witness for the amended C9 on a porcelain listing with an attached and
a detached entry. -/
theorem parseWorktreeListPorcelain_detached_no_branch_witness :
    noBranchAfterDetachedInStanza (splitLines
      "worktree /a\ndetached\n\nworktree /b\nHEAD 1234\nbranch refs/heads/x") = true ∧
    ((parseWorktreeListPorcelain
      "worktree /a\ndetached\n\nworktree /b\nHEAD 1234\nbranch refs/heads/x").worktrees.all
      (fun e => !e.isDetached || e.branch == none)) = true :=
  ⟨by decide, parseWorktreeListPorcelain_detached_no_branch _ (by decide)⟩

deriving instance DecidableEq for Except

/-- Result of resolveRemovalTarget. -/
structure ResolveRemovalTargetResult where
  targetPath : String
  registeredPath : Option String
  registeredWorktree : Option WorktreeEntry
  isPathInputTarget : Bool
deriving DecidableEq

/-- The target-choice stage of resolveRemovalTarget (everything before the
final root check): resolve, abort on ambiguity, otherwise take the
registered path or probe the candidates for the first two existing
directories (the loop stops at the second hit, which is the first two
elements of the existence-filtered list).  The filesystem existence check
is an oracle argument; fatal exits are the error branch. -/
def resolveRemovalTargetPath (fs : String → Bool) (homedir : String)
    (inp : ResolveWorktreeTargetInput) :
    Except String (String × Option String × Option WorktreeEntry × Bool) :=
  match resolveWorktreeTarget homedir inp with
  | .ambiguous m => .error m
  | .registered w isP => .ok (w.path, some w.path, some w, isP)
  | .candidates cps rip isP i =>
    match cps.filter fs with
    | [] => .error (if isP then "No worktree or directory found at '" ++ rip ++ "'."
        else "No worktree or directory found for '" ++ i ++ "'.")
    | [e] => .ok (e, none, none, isP)
    | e :: e2 :: _ => .error ("Multiple directories exist for '" ++ i ++ "': '" ++ e ++
        "' and '" ++ e2 ++ "'. Re-run with --interactive or pass a full path.")

/-- resolveRemovalTarget from resolve-removal-target.ts (posix path API):
the stage above followed by the filesystem-root refusal on the resolved
target path. -/
def resolveRemovalTarget (fs : String → Bool) (homedir : String)
    (inp : ResolveWorktreeTargetInput) : Except String ResolveRemovalTargetResult :=
  match resolveRemovalTargetPath fs homedir inp with
  | .error m => .error m
  | .ok (tp, reg, regw, isP) =>
    let resolvedTargetPath := posixResolve inp.cwd tp
    if posixParseRoot resolvedTargetPath == resolvedTargetPath then
      .error "Refusing to remove a filesystem root directory."
    else .ok ⟨resolvedTargetPath, reg, regw, isP⟩

example : resolveRemovalTarget (fun p => p == "/m-x") "/home/u" ⟨"x", "/", "/m", []⟩ =
    .ok ⟨"/m-x", none, none, false⟩ := by decide

/-- C10: whenever the chosen target path resolves to its own filesystem
root, resolveRemovalTarget exits fatally with the root refusal, and a
successful resolution never returns a filesystem root as the target. -/
theorem resolveRemovalTarget_refuses_root (fs : String → Bool) (homedir : String)
    (inp : ResolveWorktreeTargetInput) :
    (∀ tp reg regw isP,
      resolveRemovalTargetPath fs homedir inp = .ok (tp, reg, regw, isP) →
      posixParseRoot (posixResolve inp.cwd tp) = posixResolve inp.cwd tp →
      resolveRemovalTarget fs homedir inp =
        .error "Refusing to remove a filesystem root directory.") ∧
    (∀ res, resolveRemovalTarget fs homedir inp = .ok res →
      posixParseRoot res.targetPath ≠ res.targetPath) := by
  constructor
  · intro tp reg regw isP hok hroot
    unfold resolveRemovalTarget
    rw [hok]
    simp only []
    rw [if_pos (by rw [beq_iff_eq]; exact hroot)]
  · intro res hok
    unfold resolveRemovalTarget at hok
    cases hpath : resolveRemovalTargetPath fs homedir inp with
    | error m =>
      rw [hpath] at hok
      simp at hok
    | ok t =>
      obtain ⟨tp, reg, regw, isP⟩ := t
      rw [hpath] at hok
      simp only [] at hok
      by_cases hroot : (posixParseRoot (posixResolve inp.cwd tp) ==
          posixResolve inp.cwd tp : Bool) = true
      · rw [if_pos hroot] at hok
        simp at hok
      · rw [if_neg hroot] at hok
        have hres : res = ⟨posixResolve inp.cwd tp, reg, regw, isP⟩ := by
          cases hok
          rfl
        rw [hres]
        intro hcontra
        exact hroot (by rw [beq_iff_eq]; exact hcontra)

/-- Witness for C10: resolving the literal root path refuses fatally, and
a successful sibling resolution returns a non-root target. -/
theorem resolveRemovalTarget_refuses_root_witness :
    resolveRemovalTargetPath (fun p => p == "/") "/home/u" ⟨"/", "/", "/m", []⟩ =
      .ok ("/", none, none, true) ∧
    resolveRemovalTarget (fun p => p == "/") "/home/u" ⟨"/", "/", "/m", []⟩ =
      .error "Refusing to remove a filesystem root directory." ∧
    posixParseRoot (ResolveRemovalTargetResult.targetPath ⟨"/m-x", none, none, false⟩) ≠
      ResolveRemovalTargetResult.targetPath ⟨"/m-x", none, none, false⟩ := by
  refine ⟨by decide, ?_, ?_⟩
  · exact (resolveRemovalTarget_refuses_root (fun p => p == "/") "/home/u"
      ⟨"/", "/", "/m", []⟩).1 "/" none none true (by decide) (by decide)
  · exact (resolveRemovalTarget_refuses_root (fun p => p == "/m-x") "/home/u"
      ⟨"x", "/", "/m", []⟩).2 ⟨"/m-x", none, none, false⟩ (by decide)

/-- External effects the removal executor can invoke, recorded in order. -/
inductive ExtCall where
  | checkDir (path : String)
  | trash (path : String)
  | unregister (mainPath path : String) (force : Bool)
  | prompt (message : String)
deriving DecidableEq

/-- Outcome of one removal attempt: the spec's closed set ok / cancelled /
failed, plus fatalExit for exitWithMessage from a disabled prompt. -/
inductive RemovalOutcome where
  | ok
  | cancelled
  | failed
  | fatalExit (message : String)
deriving DecidableEq

/-- Input of performWorktreeRemoval.  skipTrashFailurePrompt is the flag
the batch coordinator passes; its handling is modelled from the spec
(section 4.3 and the caller's comment in remove-batch.ts), since the
executor revision accepting it is not among the sources. -/
structure PerformWorktreeRemovalInput where
  status : String
  targetDirectoryName : String
  targetPath : String
  mainPath : String
  registeredPath : Option String
  directoryExistedInitially : Bool
  dryRun : Bool
  assumeYes : Bool
  force : Bool
  allowPrompt : Bool
  skipTrashFailurePrompt : Bool
deriving DecidableEq

/-- Oracle for the executor's collaborators: the existence checks, the
trash move, the git unregister and the interactive prompt. -/
structure ExecEnv where
  dirExistsBefore : Bool
  trashOk : Bool
  trashReason : String
  unregisterOk : Bool
  unregisterReason : String
  dirExistsAfter : Bool
  promptAnswer : Bool
deriving DecidableEq

/-- Result of one executor run: outcome, recorded external invocations in
order, and the messages written to the output sink. -/
structure ExecResult where
  outcome : RemovalOutcome
  calls : List ExtCall
  messages : List String
deriving DecidableEq

/-- The escalation prompt text of the executor. -/
def escalationMessage (inp : PerformWorktreeRemovalInput) (env : ExecEnv) : String :=
  "Could not move directory '" ++ inp.targetDirectoryName ++ "' to trash: " ++
    env.trashReason ++ ". Proceed with unregistering anyway? (Git may permanently delete it)"

/-- Steps 3-4 of the executor (deregistration and final reporting), shared
by every non-halting path of step 2. -/
def execFinish (inp : PerformWorktreeRemovalInput) (env : ExecEnv)
    (movedToTrash forceUnregister : Bool) (msgs : List String) (calls : List ExtCall) :
    ExecResult :=
  if optTruthy inp.registeredPath then
    let rp := inp.registeredPath.getD ""
    if inp.dryRun then
      { outcome := .ok, calls := calls,
        messages := msgs ++ ["Would unregister '" ++ rp ++ "' from Git.", "Done."] }
    else
      let calls2 := calls ++ [ExtCall.unregister inp.mainPath rp forceUnregister]
      let msgs2 := msgs ++ ["Unregistering from Git..."] ++
        (if env.unregisterOk then ["Unregistered from Git."]
         else ["Could not fully unregister from Git: " ++ env.unregisterReason ++ "."])
      if env.dirExistsBefore && !movedToTrash then
        let calls3 := calls2 ++ [ExtCall.checkDir inp.targetPath]
        let msgs3 := msgs2 ++ (if env.dirExistsAfter then
            ["Directory still exists. Remove it manually."]
          else ["Directory was removed by Git."])
        { outcome := .ok, calls := calls3, messages := msgs3 ++ ["Done."] }
      else { outcome := .ok, calls := calls2, messages := msgs2 ++ ["Done."] }
  else if !env.dirExistsBefore && !inp.directoryExistedInitially then
    { outcome := .ok, calls := calls,
      messages := msgs ++ ["Directory did not exist.", "Done."] }
  else
    { outcome := .ok, calls := calls, messages := msgs ++ ["Done."] }

/-- Modelled from the spec: the outcome labels and the
skipTrashFailurePrompt branch (failure instead of an interactive
escalation) follow the spec's state machine in section 4.3 and the
caller's contract in remove-batch.ts, since the executor revision
carrying them is not among the sources.  Everything else is the body of
performWorktreeRemoval from perform-worktree-removal.ts, with the
collaborators as oracles and every external invocation recorded; the
non-interactive approvals follow confirmAction from confirm-action.ts. -/
def performWorktreeRemoval (inp : PerformWorktreeRemovalInput) (env : ExecEnv) : ExecResult :=
  let msgs0 := ["Removing " ++ inp.status ++ " '" ++ inp.targetDirectoryName ++ "'..."]
  let calls0 : List ExtCall := [ExtCall.checkDir inp.targetPath]
  if env.dirExistsBefore then
    if inp.dryRun then
      execFinish inp env false inp.force
        (msgs0 ++ ["Would move '" ++ inp.targetPath ++ "' to trash."]) calls0
    else
      let msgs1 := msgs0 ++ ["Moving directory to trash..."]
      let calls1 := calls0 ++ [ExtCall.trash inp.targetPath]
      if env.trashOk then
        execFinish inp env true inp.force (msgs1 ++ ["Directory moved to trash."]) calls1
      else if optTruthy inp.registeredPath then
        if inp.force then
          execFinish inp env false true
            (msgs1 ++ ["Could not move directory to trash: " ++ env.trashReason ++
              ". Git may permanently delete it."]) calls1
        else if inp.assumeYes || inp.dryRun then
          execFinish inp env false true
            (msgs1 ++ ["Could not move directory to trash: " ++ env.trashReason ++
              ". Git may permanently delete it."]) calls1
        else if inp.skipTrashFailurePrompt then
          { outcome := .failed, calls := calls1,
            messages := msgs1 ++ ["Could not move directory to trash: " ++
              env.trashReason ++ "."] }
        else if !inp.allowPrompt then
          { outcome := .fatalExit
              "Trash move failed. Re-run with --yes or --force to proceed in non-interactive mode.",
            calls := calls1, messages := msgs1 }
        else
          let calls2 := calls1 ++ [ExtCall.prompt (escalationMessage inp env)]
          if env.promptAnswer then
            execFinish inp env false true msgs1 calls2
          else
            { outcome := .cancelled, calls := calls2,
              messages := msgs1 ++ ["Removal cancelled."] }
      else
        { outcome := .failed, calls := calls1,
          messages := msgs1 ++ ["Could not move directory to trash: " ++ env.trashReason ++
            ". Remove manually."] }
  else
    execFinish inp env false inp.force msgs0 calls0

/-- Does the call trace hold an interactive prompt? -/
def hasPromptCall (calls : List ExtCall) : Bool :=
  calls.any (fun c => match c with | .prompt _ => true | _ => false)

/-- Does the call trace hold a trash invocation? -/
def hasTrashCall (calls : List ExtCall) : Bool :=
  calls.any (fun c => match c with | .trash _ => true | _ => false)

/-- Does the call trace hold a git-unregister invocation? -/
def hasUnregisterCall (calls : List ExtCall) : Bool :=
  calls.any (fun c => match c with | .unregister _ _ _ => true | _ => false)

/-- Input of prepareCwdSwitch from handle-cwd-switch.ts. -/
structure CwdSwitchInput where
  targetPaths : List String
  invocationCwd : String
  mainPath : String
  targetName : String
  dryRun : Bool
deriving DecidableEq

/-- Observable behaviour of the callback prepareCwdSwitch returns: the
directory process.chdir successfully switched to (if any), a fatal
exitWithMessage, and the messages written.  chdirError is the oracle for
the try-catch around process.chdir (none = success). -/
structure CwdSwitchRun where
  chdirTo : Option String
  fatal : Option String
  messages : List String
deriving DecidableEq

/-- Body of the callback returned by prepareCwdSwitch. -/
def cwdSwitchAction (inp : CwdSwitchInput) (chdirError : Option String) : CwdSwitchRun :=
  if inp.dryRun then
    { chdirTo := none, fatal := none,
      messages := ["Would switch process working directory to '" ++ inp.mainPath ++
          "' before removal.",
        "Dry run only. In a real run, your shell may still point to the removed directory. Switch it to '" ++
          inp.mainPath ++ "' or another existing path."] }
  else
    match chdirError with
    | none =>
      { chdirTo := some inp.mainPath, fatal := none,
        messages := ["Switched process working directory to '" ++ inp.mainPath ++
            "' before removal.",
          "After removal, your shell may still point to a removed directory. Switch it to '" ++
            inp.mainPath ++ "' or another existing path."] }
    | some reason =>
      { chdirTo := none,
        fatal := some ("Could not switch working directory to main worktree '" ++
          inp.mainPath ++ "': " ++ reason),
        messages := [] }

/-- Guard of prepareCwdSwitch: the warning emitted before confirmation,
none when no switch is needed (the returned callback is cwdSwitchAction). -/
def prepareCwdSwitch (platform : Platform) (inp : CwdSwitchInput) : Option String :=
  let cwdInsideAnyTarget := inp.targetPaths.any (fun targetPath =>
    isPathEqualOrWithin inp.invocationCwd ⟨targetPath, inp.invocationCwd, platform⟩)
  if !cwdInsideAnyTarget ||
      normalizePathKey platform inp.invocationCwd inp.invocationCwd ==
        normalizePathKey platform inp.invocationCwd inp.mainPath then
    none
  else
    some ("Current directory is inside '" ++ inp.targetName ++ "'. The command " ++
      (if inp.dryRun then "would" else "will") ++ " switch to '" ++ inp.mainPath ++
      "' before removing it, and your shell directory will not change.")

/-- Batch-wide options of removeBatch. -/
structure BatchOptions where
  dryRun : Bool
  assumeYes : Bool
  force : Bool
  allowPrompt : Bool
deriving DecidableEq

/-- One resolved target of the batch (the fields phase 3 consumes). -/
structure BatchTarget where
  status : String
  targetDirectoryName : String
  targetPath : String
  registeredPath : Option String
  directoryExists : Bool
deriving DecidableEq

/-- The executor input remove-batch.ts builds for one resolved target in
phase 3: the batch options are copied through and the interactive
trash-failure escalation is suppressed unless the batch has exactly one
target. -/
def batchExecInput (opts : BatchOptions) (mainPath : String) (isSingleTarget : Bool)
    (r : BatchTarget) : PerformWorktreeRemovalInput :=
  { status := r.status,
    targetDirectoryName := r.targetDirectoryName,
    targetPath := r.targetPath,
    mainPath := mainPath,
    registeredPath := r.registeredPath,
    directoryExistedInitially := r.directoryExists,
    dryRun := opts.dryRun,
    assumeYes := opts.assumeYes,
    force := opts.force,
    allowPrompt := opts.allowPrompt,
    skipTrashFailurePrompt := !isSingleTarget }

/-- Phase 3 of removeBatch: run the executor on every resolved target
(concurrency is bounded in the program; each target's attempt is
independent, so results are indexed by target order). -/
def removeBatchPhase3 (opts : BatchOptions) (mainPath : String)
    (resolved : List BatchTarget) (envOf : BatchTarget → ExecEnv) : List ExecResult :=
  resolved.map (fun r =>
    performWorktreeRemoval (batchExecInput opts mainPath (resolved.length == 1) r) (envOf r))

theorem hasPromptCall_append (a b : List ExtCall) :
    hasPromptCall (a ++ b) = (hasPromptCall a || hasPromptCall b) := by
  simp [hasPromptCall]

theorem execFinish_no_prompt (inp : PerformWorktreeRemovalInput) (env : ExecEnv)
    (m f : Bool) (msgs : List String) (calls : List ExtCall)
    (h : hasPromptCall calls = false) :
    hasPromptCall (execFinish inp env m f msgs calls).calls = false := by
  unfold execFinish
  split
  · split
    · simpa [hasPromptCall] using h
    · split <;> split <;> simp_all [hasPromptCall]
  · split <;> simp_all [hasPromptCall]

theorem performWorktreeRemoval_skip_no_prompt (inp : PerformWorktreeRemovalInput)
    (env : ExecEnv) (hskip : inp.skipTrashFailurePrompt = true) :
    hasPromptCall (performWorktreeRemoval inp env).calls = false := by
  unfold performWorktreeRemoval
  by_cases hd : env.dirExistsBefore = true <;>
  by_cases hdry : inp.dryRun = true <;>
  by_cases ht : env.trashOk = true <;>
  by_cases hr : optTruthy inp.registeredPath = true <;>
  by_cases hf : inp.force = true <;>
  by_cases hy : inp.assumeYes = true <;>
    simp only [hd, hdry, ht, hr, hf, hy, hskip, if_true, if_false, Bool.false_eq_true,
      Bool.false_or, Bool.true_or, Bool.or_false, ite_true, ite_false, eq_self_iff_true] <;>
  first
    | exact execFinish_no_prompt _ _ _ _ _ _ (by simp [hasPromptCall])
    | simp [hasPromptCall, hd, hdry, ht, hr, hf, hy, hskip]

theorem performWorktreeRemoval_dryRun_shape (inp : PerformWorktreeRemovalInput)
    (env : ExecEnv) (hdry : inp.dryRun = true) :
    performWorktreeRemoval inp env =
      { outcome := .ok,
        calls := [ExtCall.checkDir inp.targetPath],
        messages :=
          ["Removing " ++ inp.status ++ " '" ++ inp.targetDirectoryName ++ "'..."] ++
          (if env.dirExistsBefore then
            ["Would move '" ++ inp.targetPath ++ "' to trash."] else []) ++
          (if optTruthy inp.registeredPath then
            ["Would unregister '" ++ inp.registeredPath.getD "" ++ "' from Git.", "Done."]
          else if !env.dirExistsBefore && !inp.directoryExistedInitially then
            ["Directory did not exist.", "Done."]
          else ["Done."]) } := by
  unfold performWorktreeRemoval execFinish
  by_cases hd : env.dirExistsBefore = true <;>
  by_cases hr : optTruthy inp.registeredPath = true <;>
  by_cases hi : inp.directoryExistedInitially = true <;>
    simp [hdry, hd, hr, hi]

/-- C4: with dryRun set, the executor's only external invocation is the
initial existence check (no trash, no unregister), the would-move and
would-unregister announcements are produced on the corresponding branches,
and the prepared cwd-switch action performs no chdir and only announces. -/
theorem dryRun_never_mutates (inp : PerformWorktreeRemovalInput) (env : ExecEnv)
    (cinp : CwdSwitchInput) (cerr : Option String)
    (hdry : inp.dryRun = true) (hcdry : cinp.dryRun = true) :
    (performWorktreeRemoval inp env).calls = [ExtCall.checkDir inp.targetPath] ∧
    hasTrashCall (performWorktreeRemoval inp env).calls = false ∧
    hasUnregisterCall (performWorktreeRemoval inp env).calls = false ∧
    (env.dirExistsBefore = true →
      ("Would move '" ++ inp.targetPath ++ "' to trash.") ∈
        (performWorktreeRemoval inp env).messages) ∧
    (optTruthy inp.registeredPath = true →
      ("Would unregister '" ++ inp.registeredPath.getD "" ++ "' from Git.") ∈
        (performWorktreeRemoval inp env).messages) ∧
    (cwdSwitchAction cinp cerr).chdirTo = none ∧
    (cwdSwitchAction cinp cerr).messages =
      ["Would switch process working directory to '" ++ cinp.mainPath ++ "' before removal.",
       "Dry run only. In a real run, your shell may still point to the removed directory. Switch it to '" ++
         cinp.mainPath ++ "' or another existing path."] := by
  rw [performWorktreeRemoval_dryRun_shape inp env hdry]
  refine ⟨rfl, by simp [hasTrashCall], by simp [hasUnregisterCall], ?_, ?_, ?_, ?_⟩
  · intro hd
    simp [hd]
  · intro hr
    by_cases hd : env.dirExistsBefore = true <;> simp [hd, hr]
  · simp [cwdSwitchAction, hcdry]
  · simp [cwdSwitchAction, hcdry]

theorem dryRun_never_mutates_witness :
    (performWorktreeRemoval
      ⟨"worktree", "r-x", "/r-x", "/r", some "/r-x", true, true, false, false, true, false⟩
      ⟨true, false, "disk full", true, "", true, false⟩).calls = [ExtCall.checkDir "/r-x"] ∧
    hasTrashCall (performWorktreeRemoval
      ⟨"worktree", "r-x", "/r-x", "/r", some "/r-x", true, true, false, false, true, false⟩
      ⟨true, false, "disk full", true, "", true, false⟩).calls = false ∧
    hasUnregisterCall (performWorktreeRemoval
      ⟨"worktree", "r-x", "/r-x", "/r", some "/r-x", true, true, false, false, true, false⟩
      ⟨true, false, "disk full", true, "", true, false⟩).calls = false ∧
    ((true : Bool) = true →
      ("Would move '" ++ "/r-x" ++ "' to trash.") ∈
        (performWorktreeRemoval
          ⟨"worktree", "r-x", "/r-x", "/r", some "/r-x", true, true, false, false, true, false⟩
          ⟨true, false, "disk full", true, "", true, false⟩).messages) ∧
    (optTruthy (some "/r-x") = true →
      ("Would unregister '" ++ (some "/r-x").getD "" ++ "' from Git.") ∈
        (performWorktreeRemoval
          ⟨"worktree", "r-x", "/r-x", "/r", some "/r-x", true, true, false, false, true, false⟩
          ⟨true, false, "disk full", true, "", true, false⟩).messages) ∧
    (cwdSwitchAction ⟨["/r-x"], "/r-x/sub", "/r", "r-x", true⟩ none).chdirTo = none ∧
    (cwdSwitchAction ⟨["/r-x"], "/r-x/sub", "/r", "r-x", true⟩ none).messages =
      ["Would switch process working directory to '" ++ "/r" ++ "' before removal.",
       "Dry run only. In a real run, your shell may still point to the removed directory. Switch it to '" ++
         "/r" ++ "' or another existing path."] :=
  dryRun_never_mutates
    ⟨"worktree", "r-x", "/r-x", "/r", some "/r-x", true, true, false, false, true, false⟩
    ⟨true, false, "disk full", true, "", true, false⟩
    ⟨["/r-x"], "/r-x/sub", "/r", "r-x", true⟩ none rfl rfl

/-- C5: for a registered target whose directory exists and whose trash
move fails, without force, when the escalation prompt is declined the
executor ends cancelled, the recorded invocations are exactly the
existence check, the trash attempt and the prompt — no unregister — and
the run reports the cancellation. -/
theorem escalation_declined_cancels (inp : PerformWorktreeRemovalInput) (env : ExecEnv)
    (hreg : optTruthy inp.registeredPath = true)
    (hdir : env.dirExistsBefore = true) (htrash : env.trashOk = false)
    (hforce : inp.force = false) (hyes : inp.assumeYes = false)
    (hdry : inp.dryRun = false) (hskip : inp.skipTrashFailurePrompt = false)
    (hallow : inp.allowPrompt = true) (hans : env.promptAnswer = false) :
    (performWorktreeRemoval inp env).outcome = .cancelled ∧
    (performWorktreeRemoval inp env).calls =
      [ExtCall.checkDir inp.targetPath, ExtCall.trash inp.targetPath,
       ExtCall.prompt (escalationMessage inp env)] ∧
    hasUnregisterCall (performWorktreeRemoval inp env).calls = false ∧
    (performWorktreeRemoval inp env).messages =
      ["Removing " ++ inp.status ++ " '" ++ inp.targetDirectoryName ++ "'...",
       "Moving directory to trash...", "Removal cancelled."] := by
  unfold performWorktreeRemoval
  simp [hreg, hdir, htrash, hforce, hyes, hdry, hskip, hallow, hans, hasUnregisterCall]

theorem escalation_declined_cancels_witness :
    optTruthy (some "/r-x") = true ∧
    ((performWorktreeRemoval
        ⟨"worktree", "r-x", "/r-x", "/r", some "/r-x", true, false, false, false, true, false⟩
        ⟨true, false, "disk full", true, "", true, false⟩).outcome = .cancelled ∧
      (performWorktreeRemoval
        ⟨"worktree", "r-x", "/r-x", "/r", some "/r-x", true, false, false, false, true, false⟩
        ⟨true, false, "disk full", true, "", true, false⟩).calls =
        [ExtCall.checkDir "/r-x", ExtCall.trash "/r-x",
         ExtCall.prompt (escalationMessage
           ⟨"worktree", "r-x", "/r-x", "/r", some "/r-x", true, false, false, false, true, false⟩
           ⟨true, false, "disk full", true, "", true, false⟩)] ∧
      hasUnregisterCall (performWorktreeRemoval
        ⟨"worktree", "r-x", "/r-x", "/r", some "/r-x", true, false, false, false, true, false⟩
        ⟨true, false, "disk full", true, "", true, false⟩).calls = false ∧
      (performWorktreeRemoval
        ⟨"worktree", "r-x", "/r-x", "/r", some "/r-x", true, false, false, false, true, false⟩
        ⟨true, false, "disk full", true, "", true, false⟩).messages =
        ["Removing " ++ "worktree" ++ " '" ++ "r-x" ++ "'...",
         "Moving directory to trash...", "Removal cancelled."]) :=
  ⟨by decide,
   escalation_declined_cancels
     ⟨"worktree", "r-x", "/r-x", "/r", some "/r-x", true, false, false, false, true, false⟩
     ⟨true, false, "disk full", true, "", true, false⟩
     (by decide) rfl rfl rfl rfl rfl rfl rfl rfl⟩

/-- C2: in a batch with more than one resolved target, every executor
input carries skipTrashFailurePrompt, no run in phase 3 records an
interactive prompt, and a target whose trash move fails while registered
and otherwise needing interactive approval (no force, no assumeYes, no
dry run) ends failed instead of prompting. -/
theorem multi_target_suppresses_prompt (opts : BatchOptions) (mainPath : String)
    (resolved : List BatchTarget) (envOf : BatchTarget → ExecEnv) (r : BatchTarget)
    (hmulti : 1 < resolved.length) (hmem : r ∈ resolved) :
    (batchExecInput opts mainPath (resolved.length == 1) r).skipTrashFailurePrompt = true ∧
    performWorktreeRemoval (batchExecInput opts mainPath (resolved.length == 1) r)
      (envOf r) ∈ removeBatchPhase3 opts mainPath resolved envOf ∧
    hasPromptCall (performWorktreeRemoval
      (batchExecInput opts mainPath (resolved.length == 1) r) (envOf r)).calls = false ∧
    ((envOf r).dirExistsBefore = true → (envOf r).trashOk = false →
      optTruthy r.registeredPath = true → opts.force = false → opts.assumeYes = false →
      opts.dryRun = false →
      (performWorktreeRemoval (batchExecInput opts mainPath (resolved.length == 1) r)
        (envOf r)).outcome = .failed) := by
  have hne : resolved.length ≠ 1 := by omega
  have hsingle : (resolved.length == 1) = false := beq_eq_false_iff_ne.mpr hne
  have hskip : (batchExecInput opts mainPath (resolved.length == 1) r).skipTrashFailurePrompt
      = true := by
    simp [batchExecInput, hsingle]
  refine ⟨hskip, ?_, ?_, ?_⟩
  · exact List.mem_map.mpr ⟨r, hmem, rfl⟩
  · exact performWorktreeRemoval_skip_no_prompt _ _ hskip
  · intro hdir htrash hreg hforce hyes hdry
    unfold performWorktreeRemoval
    simp [batchExecInput, hsingle, hdir, htrash, hreg, hforce, hyes, hdry]

theorem multi_target_suppresses_prompt_witness :
    1 < [(⟨"worktree", "r-a", "/r-a", some "/r-a", true⟩ : BatchTarget),
         ⟨"worktree", "r-b", "/r-b", some "/r-b", true⟩].length ∧
    ((batchExecInput ⟨false, false, false, true⟩ "/r"
        ([(⟨"worktree", "r-a", "/r-a", some "/r-a", true⟩ : BatchTarget),
          ⟨"worktree", "r-b", "/r-b", some "/r-b", true⟩].length == 1)
        ⟨"worktree", "r-a", "/r-a", some "/r-a", true⟩).skipTrashFailurePrompt = true ∧
      performWorktreeRemoval
        (batchExecInput ⟨false, false, false, true⟩ "/r"
          ([(⟨"worktree", "r-a", "/r-a", some "/r-a", true⟩ : BatchTarget),
            ⟨"worktree", "r-b", "/r-b", some "/r-b", true⟩].length == 1)
          ⟨"worktree", "r-a", "/r-a", some "/r-a", true⟩)
        ((fun _ => (⟨true, false, "disk full", true, "", true, true⟩ : ExecEnv))
          (⟨"worktree", "r-a", "/r-a", some "/r-a", true⟩ : BatchTarget)) ∈
        removeBatchPhase3 ⟨false, false, false, true⟩ "/r"
          [(⟨"worktree", "r-a", "/r-a", some "/r-a", true⟩ : BatchTarget),
           ⟨"worktree", "r-b", "/r-b", some "/r-b", true⟩]
          (fun _ => (⟨true, false, "disk full", true, "", true, true⟩ : ExecEnv)) ∧
      hasPromptCall (performWorktreeRemoval
        (batchExecInput ⟨false, false, false, true⟩ "/r"
          ([(⟨"worktree", "r-a", "/r-a", some "/r-a", true⟩ : BatchTarget),
            ⟨"worktree", "r-b", "/r-b", some "/r-b", true⟩].length == 1)
          ⟨"worktree", "r-a", "/r-a", some "/r-a", true⟩)
        ((fun _ => (⟨true, false, "disk full", true, "", true, true⟩ : ExecEnv))
          (⟨"worktree", "r-a", "/r-a", some "/r-a", true⟩ : BatchTarget))).calls = false ∧
      (((fun _ => (⟨true, false, "disk full", true, "", true, true⟩ : ExecEnv))
          (⟨"worktree", "r-a", "/r-a", some "/r-a", true⟩ : BatchTarget)).dirExistsBefore = true →
        ((fun _ => (⟨true, false, "disk full", true, "", true, true⟩ : ExecEnv))
          (⟨"worktree", "r-a", "/r-a", some "/r-a", true⟩ : BatchTarget)).trashOk = false →
        optTruthy (BatchTarget.registeredPath ⟨"worktree", "r-a", "/r-a", some "/r-a", true⟩) = true →
        (false : Bool) = false → (false : Bool) = false → (false : Bool) = false →
        (performWorktreeRemoval
          (batchExecInput ⟨false, false, false, true⟩ "/r"
            ([(⟨"worktree", "r-a", "/r-a", some "/r-a", true⟩ : BatchTarget),
              ⟨"worktree", "r-b", "/r-b", some "/r-b", true⟩].length == 1)
            ⟨"worktree", "r-a", "/r-a", some "/r-a", true⟩)
          ((fun _ => (⟨true, false, "disk full", true, "", true, true⟩ : ExecEnv))
            (⟨"worktree", "r-a", "/r-a", some "/r-a", true⟩ : BatchTarget))).outcome = .failed)) :=
  ⟨by decide,
   multi_target_suppresses_prompt ⟨false, false, false, true⟩ "/r"
     [⟨"worktree", "r-a", "/r-a", some "/r-a", true⟩,
      ⟨"worktree", "r-b", "/r-b", some "/r-b", true⟩]
     (fun _ => ⟨true, false, "disk full", true, "", true, true⟩)
     ⟨"worktree", "r-a", "/r-a", some "/r-a", true⟩
     (by decide) (by decide)⟩
